import Mathlib

/-!
# SignalHandler: signals, slots and automatic disconnection

A shallow embedding of `include/signal_handler.h`.

* Pointers (`void*`) to objects are natural numbers (addresses). An object and its
  `SignalHandler<ObjectT>` base subobject need not have the same address (they differ
  when the class has virtual members and the base has none); a `Layout` gives the
  address of the base subobject of each object. `connect` stores the receiver under the
  address of the object and the sender of the teardown wiring under the address of its
  base subobject, the destructor passes the address of the object, and a stored
  `disconnect_all` runs on the object whose base subobject is at the stored address.
* A signal pointer and a slot pointer are identity tokens; the two members that
  `SignalHandler` itself declares, the signal `deleted` and the slot
  `disconnect_all`, are distinguished constructors.
* `std::unordered_map` is `Finmap` and `std::unordered_set` is `Finset`: finite,
  unordered, keys unique, equal exactly when they hold the same entries.
* `m[k]` on a map creates the key with an empty value when it is absent.
* The parameters of a signal are one natural number; for `deleted` it is the address
  of the emitting object.
* A heap (`World`) maps an address to the object that lives there, `none` when
  the object has been destroyed or never existed.
* `SignalHandler.signal_emit` is the method as the emitting object sees it: its table
  afterwards and the calls `slot_handle(slot, params...)` it makes, as a multiset since
  the iteration order of the containers is unspecified. `World.signal_emit` also runs
  the called slots. The slots that user classes declare are outside the header:
  running one changes no table. The slot `disconnect_all` is the header's own and is
  executed on the object that the stored address designates.
* Behaviour that C++ leaves undefined or unspecified is `none`: a call through a
  pointer that designates no live object, and a slot that erases from the map which
  the running loop iterates.
* The checks of `check_signal_slot_types` are made by the compiler: the function of that
  name lists the `static_assert`s that fail for the types of a call, and
  `World.instantiate_connect`, `World.instantiate_disconnect` give the heap operation
  only when none fails. The heap operations themselves are the well-typed calls.
-/

/-! ## Tables -/

namespace SignalHandler

/-- Identity of a signal method: `deleted`, or a signal declared by a user class. -/
inductive SignalPtr where
  | deleted : SignalPtr
  | signal : Nat → SignalPtr
  deriving DecidableEq, Repr

/-- Identity of a slot method: `disconnect_all`, or a slot declared by a user class. -/
inductive SlotPtr where
  | disconnect_all : SlotPtr
  | slot : Nat → SlotPtr
  deriving DecidableEq, Repr

/-- Address of a receiving object (`using ResiverPtr = void*`). -/
abbrev ResiverPtr := Nat

/-- Address of a sending object (`using SenderPtr = void*`). -/
abbrev SenderPtr := Nat

/-- The type `std::unordered_map<ResiverPtr, std::unordered_set<SlotPtr>>`. -/
abbrev ResiverData := Finmap (fun _ : ResiverPtr => Finset SlotPtr)

/-- The type of the member `m_connected_slots`. -/
abbrev SlotTable := Finmap (fun _ : SignalPtr => ResiverData)

/-- The value that `m[k]` refers to: the stored one, or a fresh empty one. -/
def subscript {K : Type} [DecidableEq K] {V : Type} [EmptyCollection V]
    (m : Finmap (fun _ : K => V)) (k : K) : V :=
  (m.lookup k).getD ∅

/-- Apply `f` to every value of a map, keys unchanged (a loop `for (auto & kv : m) f(kv.second)`). -/
def forEachValue {K : Type} [DecidableEq K] {V : Type} (f : V → V)
    (m : Finmap (fun _ : K => V)) : Finmap (fun _ : K => V) :=
  m.liftOn
    (fun l => AList.toFinmap
      ⟨l.entries.map (fun e => (⟨e.1, f e.2⟩ : Sigma (fun _ : K => V))), by
        have h := l.nodupKeys
        simp only [List.NodupKeys, List.keys, List.map_map] at h ⊢
        exact h⟩)
    (by
      intro a b hab
      apply AList.toFinmap_eq.2
      exact hab.map _)

end SignalHandler

/-- The data of one `SignalHandler<ObjectT>` object. -/
structure SignalHandler where
  m_connected_slots : SignalHandler.SlotTable
  deriving DecidableEq

namespace SignalHandler

/-- One call `resiver->slot_handle(slot, params...)` made by `signal_emit`. -/
structure Call where
  resiver : ResiverPtr
  slot : SlotPtr
  param : Nat
  deriving DecidableEq, Repr

instance Call.decidableExists (cs : Multiset Call) (p : Call → Prop) [DecidablePred p] :
    Decidable (∃ c ∈ cs, p c) :=
  Multiset.decidableExistsMultiset

/-- A freshly constructed object: `SignalHandler() {}`. -/
def new : SignalHandler := ⟨∅⟩

/-- The slots stored for `(signal, resiver)`, empty when a key is absent. -/
def connected (self : SignalHandler) (l_signal : SignalPtr) (l_resiver : ResiverPtr) :
    Finset SlotPtr :=
  subscript (subscript self.m_connected_slots l_signal) l_resiver

/-- Effect on the sender of `sender.m_connected_slots[l_signal][l_resiver].insert(l_slot)`. -/
def _connect (sender : SignalHandler) (l_signal : SignalPtr) (l_resiver : ResiverPtr)
    (l_slot : SlotPtr) : SignalHandler :=
  let data := subscript sender.m_connected_slots l_signal
  let l_connected_slots := subscript data l_resiver
  ⟨sender.m_connected_slots.insert l_signal
    (data.insert l_resiver (insert l_slot l_connected_slots))⟩

/-- Effect on the sender of `disconnect`:
`sender.m_connected_slots[l_signal][l_resiver].erase(l_slot)`. -/
def disconnect (sender : SignalHandler) (l_signal : SignalPtr) (l_resiver : ResiverPtr)
    (l_slot : SlotPtr) : SignalHandler :=
  let data := subscript sender.m_connected_slots l_signal
  let l_connected_slots := subscript data l_resiver
  ⟨sender.m_connected_slots.insert l_signal
    (data.insert l_resiver (l_connected_slots.erase l_slot))⟩

/-- The method `disconnect_all`: `for (auto & signals: m_connected_slots) signals.second.erase(sender)`. -/
def disconnect_all (self : SignalHandler) (sender : SenderPtr) : SignalHandler :=
  ⟨forEachValue (fun signals => signals.erase sender) self.m_connected_slots⟩

/-- The calls that the two loops of `signal_emit` make over `m_connected_slots[l_signal]`:
one per stored `(resiver, slot)`, each with the parameters of the emit. -/
def emitted (data : ResiverData) (param : Nat) : Multiset Call :=
  data.entries.bind (fun d => d.2.val.map (fun slot => (⟨d.1, slot, param⟩ : Call)))

/-- The method `signal_emit` seen from the emitting object: its table afterwards
(`m_connected_slots[l_signal]` creates the key) and the calls it makes. -/
def signal_emit (self : SignalHandler) (l_signal : SignalPtr) (param : Nat) :
    SignalHandler × Multiset Call :=
  let data := subscript self.m_connected_slots l_signal
  (⟨self.m_connected_slots.insert l_signal data⟩, emitted data param)

end SignalHandler

/-! ## The heap -/

/-- The heap: the object living at each address, `none` once it is destroyed. -/
abbrev World := Nat → Option SignalHandler

/-- Where the `SignalHandler<ObjectT>` base subobject of an object lies: `base o` is the
address of the base subobject of the object at address `o`, the value of
`&static_cast<ParentT&>(object)`, and `owner p` is the object whose base subobject is
at address `p`. -/
structure Layout where
  base : Nat → Nat
  owner : Nat → Option Nat

namespace Layout

/-- Classes without virtual members: the base subobject is at the address of the object. -/
def flat : Layout := ⟨fun o => o, fun p => some p⟩

/-- Classes with virtual members: the object starts with its table pointer and the base
subobject follows it. -/
def vptr : Layout := ⟨fun o => o + 8, fun p => if 8 ≤ p then some (p - 8) else none⟩

/-- The two directions of a layout agree. -/
def Lawful (L : Layout) : Prop := ∀ o p, L.owner p = some o ↔ L.base o = p

end Layout

namespace World

open SignalHandler

/-- A set of freshly constructed objects, one at each address of `objs`. -/
def fresh (objs : Finset Nat) : World :=
  fun o => if o ∈ objs then some SignalHandler.new else none

/-- The static method `_connect(sender, signal, resiver, slot)`: writes to the table
of `sender`; of `resiver` it only takes the address. -/
def _connect (w : World) (sender : Nat) (signal : SignalPtr) (resiver : Nat) (slot : SlotPtr) :
    Option World :=
  match w sender with
  | none => none
  | some s => some (Function.update w sender (some (s._connect signal resiver slot)))

/-- The static method `connect(sender, signal, resiver, slot)`:
`_connect(sender, signal, resiver, slot);`
`_connect(resiver, &ResiverT::deleted, static_cast<typename SenderT::ParentT&>(sender),`
`&SenderT::disconnect_all);`
The first call stores the address of the receiving object, the second the address of the
base subobject of the sender. -/
def connect (L : Layout) (w : World) (sender : Nat) (signal : SignalPtr) (resiver : Nat)
    (slot : SlotPtr) : Option World :=
  (_connect w sender signal resiver slot).bind
    (fun w1 => _connect w1 resiver SignalPtr.deleted (L.base sender) SlotPtr.disconnect_all)

/-- The static method `disconnect(sender, signal, resiver, slot)`. -/
def disconnect (w : World) (sender : Nat) (signal : SignalPtr) (resiver : Nat) (slot : SlotPtr) :
    Option World :=
  match w sender with
  | none => none
  | some s => some (Function.update w sender (some (s.disconnect signal resiver slot)))

/-- A direct call `self.disconnect_all(sender)`. -/
def disconnect_all (w : World) (self : Nat) (sender : SenderPtr) : Option World :=
  match w self with
  | none => none
  | some s => some (Function.update w self (some (s.disconnect_all sender)))

/-- The effect of the call `(static_cast<ObjectT*>(this)->*f_ptr)(params...)` of
`slot_handle` on the table `r` of the object it runs on (see `target`).
`disconnect_all` is the header's own slot and is executed; a slot of a user class
is a call out of the header and leaves the table as it is. -/
def run_slot (r : SignalHandler) (slot : SlotPtr) (param : Nat) : SignalHandler :=
  match slot with
  | SlotPtr.disconnect_all => r.disconnect_all param
  | SlotPtr.slot _ => r

/-- The object on which a call runs. `slot_handle` calls the slot with `this` equal to the
stored address, whatever the class of the slot: a slot of a user class is a method of the
object at that address, and `disconnect_all` is a method of `SignalHandler`, so the
stored address is taken as the address of a base subobject. -/
def target (L : Layout) (c : Call) : Option Nat :=
  match c.slot with
  | SlotPtr.disconnect_all => L.owner c.resiver
  | SlotPtr.slot _ => some c.resiver

/-- The call `resiver->slot_handle(slot, params...)`: runs the slot on the object that the
stored address designates. No object there, or a destroyed one, is undefined behaviour. -/
def slot_handle (L : Layout) (w : World) (c : Call) : Option World :=
  match target L c with
  | none => none
  | some o =>
    match w o with
    | none => none
    | some r => some (Function.update w o (some (run_slot r c.slot c.param)))

/-- One iteration of the loops of `signal_emit`. -/
def emit_step (L : Layout) (ow : Option World) (c : Call) : Option World :=
  ow.bind (fun w => slot_handle L w c)

end World

/-! ## The dispatch loop and the destructor

The loops of `signal_emit` run over unordered containers; the order of the iterations
does not matter, which makes the fold over the multiset of calls well defined. -/

namespace SignalHandler

theorem lookup_forEachValue {K : Type} [DecidableEq K] {V : Type} (f : V → V)
    (m : Finmap (fun _ : K => V)) (k : K) :
    (forEachValue f m).lookup k = (m.lookup k).map f := by
  induction m using Finmap.induction_on with
  | H l =>
    simp only [forEachValue, Finmap.liftOn_toFinmap, Finmap.lookup_toFinmap, AList.lookup]
    exact @List.dlookup_map K K (fun _ => V) (fun _ => V) _ _ l.entries id
      Function.injective_id (fun _ v => f v) k

@[ext]
theorem ext_table {s t : SignalHandler} (h : s.m_connected_slots = t.m_connected_slots) :
    s = t := by
  cases s; cases t; simp_all

theorem disconnect_all_comm (s : SignalHandler) (x y : SenderPtr) :
    (s.disconnect_all x).disconnect_all y = (s.disconnect_all y).disconnect_all x := by
  apply ext_table
  apply Finmap.ext_lookup
  intro g
  simp only [disconnect_all, lookup_forEachValue, Option.map_map]
  cases Finmap.lookup g s.m_connected_slots with
  | none => rfl
  | some v => simp [Finmap.erase_erase]

end SignalHandler

namespace World

open SignalHandler

theorem run_slot_comm (r : SignalHandler) (s1 s2 : SlotPtr) (p1 p2 : Nat) :
    run_slot (run_slot r s1 p1) s2 p2 = run_slot (run_slot r s2 p2) s1 p1 := by
  cases s1 <;> cases s2 <;> simp [run_slot, disconnect_all_comm r p1 p2]

theorem slot_handle_no_target {L : Layout} {c : Call} (ht : target L c = none) (w : World) :
    slot_handle L w c = none := by
  simp only [slot_handle, ht]

theorem slot_handle_dead {L : Layout} {c : Call} {t : Nat} {w : World}
    (ht : target L c = some t) (hw : w t = none) : slot_handle L w c = none := by
  simp only [slot_handle, ht, hw]

theorem slot_handle_live {L : Layout} {c : Call} {t : Nat} {w : World} {r : SignalHandler}
    (ht : target L c = some t) (hw : w t = some r) :
    slot_handle L w c = some (Function.update w t (some (run_slot r c.slot c.param))) := by
  simp only [slot_handle, ht, hw]

theorem slot_handle_comm (L : Layout) (w : World) (c1 c2 : Call) :
    (slot_handle L w c1).bind (fun w1 => slot_handle L w1 c2)
      = (slot_handle L w c2).bind (fun w1 => slot_handle L w1 c1) := by
  cases ht1 : target L c1 with
  | none =>
    rw [slot_handle_no_target ht1, Option.none_bind]
    cases hs : slot_handle L w c2 with
    | none => rfl
    | some w1 => rw [Option.some_bind, slot_handle_no_target ht1]
  | some t1 =>
    cases ht2 : target L c2 with
    | none =>
      rw [slot_handle_no_target ht2 w, Option.none_bind]
      cases hs : slot_handle L w c1 with
      | none => rfl
      | some w1 => rw [Option.some_bind, slot_handle_no_target ht2]
    | some t2 =>
      by_cases h12 : t1 = t2
      · subst h12
        cases h1 : w t1 with
        | none =>
          rw [slot_handle_dead ht1 h1, slot_handle_dead ht2 h1]
          simp only [Option.none_bind]
        | some r1 =>
          rw [slot_handle_live ht1 h1, slot_handle_live ht2 h1, Option.some_bind,
            Option.some_bind, slot_handle_live ht2 (Function.update_same _ _ _),
            slot_handle_live ht1 (Function.update_same _ _ _), Function.update_idem,
            Function.update_idem, run_slot_comm]
      · have h21 : t2 ≠ t1 := fun h => h12 h.symm
        cases h1 : w t1 with
        | none =>
          rw [slot_handle_dead ht1 h1, Option.none_bind]
          cases h2 : w t2 with
          | none => rw [slot_handle_dead ht2 h2, Option.none_bind]
          | some r2 =>
            rw [slot_handle_live ht2 h2, Option.some_bind]
            rw [slot_handle_dead ht1]
            rw [Function.update_noteq h12]
            exact h1
        | some r1 =>
          rw [slot_handle_live ht1 h1, Option.some_bind]
          cases h2 : w t2 with
          | none =>
            rw [slot_handle_dead ht2 h2, Option.none_bind, slot_handle_dead ht2]
            rw [Function.update_noteq h21]
            exact h2
          | some r2 =>
            have h2u : Function.update w t1 (some (run_slot r1 c1.slot c1.param)) t2
                = some r2 := by
              rw [Function.update_noteq h21]; exact h2
            have h1u : Function.update w t2 (some (run_slot r2 c2.slot c2.param)) t1
                = some r1 := by
              rw [Function.update_noteq h12]; exact h1
            rw [slot_handle_live ht2 h2u, slot_handle_live ht2 h2, Option.some_bind,
              slot_handle_live ht1 h1u, Function.update_comm h12]

theorem emit_step_comm_aux (L : Layout) (w : World) (c1 c2 : Call) :
    emit_step L (emit_step L (some w) c1) c2 = emit_step L (emit_step L (some w) c2) c1 := by
  simp only [emit_step, Option.some_bind]
  exact slot_handle_comm L w c1 c2

/-- The iterations of one emit may run in any order: each runs a slot on its own
receiver, and two runs of `disconnect_all` on one receiver commute. -/
theorem emit_step_comm (L : Layout) : RightCommutative (emit_step L) :=
  ⟨fun ow c1 c2 => by
    cases ow with
    | none => simp only [emit_step, Option.none_bind]
    | some w => exact emit_step_comm_aux L w c1 c2⟩

/-- The method `signal_emit` on the heap: the emitting object's table gets the key of
the signal, then each stored slot is run with the parameters on the object that its
stored address designates.
Undefined when `self` is destroyed, when a call designates no live object, and when
a slot run on `self` erases an entry of the very map the loop iterates
(`disconnect_all(param)` on `self` with `param` a key of that map).
Returns the heap afterwards and the calls made. -/
def signal_emit (L : Layout) (w : World) (self : Nat) (signal : SignalPtr) (param : Nat) :
    Option (World × Multiset Call) :=
  match w self with
  | none => none
  | some s =>
    let data := subscript s.m_connected_slots signal
    let r := s.signal_emit signal param
    if (∃ c ∈ r.2, c.slot = SlotPtr.disconnect_all ∧ L.owner c.resiver = some self)
        ∧ param ∈ data then none
    else
      (@Multiset.foldl _ _ (emit_step L) (emit_step_comm L)
          (some (Function.update w self (some r.1))) r.2).map (fun w1 => (w1, r.2))

/-- The destructor `~SignalHandler()` and the end of the object's lifetime:
`signal_emit(&SignalHandler::deleted, static_cast<ObjectT*>(this));`
then the members, with them the table, are destroyed. -/
def destroy (L : Layout) (w : World) (self : Nat) : Option (World × Multiset Call) :=
  (signal_emit L w self SignalPtr.deleted self).map
    (fun r => (Function.update r.1 self none, r.2))

end World

/-! ## Observations and reachable heaps -/

namespace SignalHandler

/-- The invocations of slot `h` on receiver `r` among the calls `cs`. -/
def calls_to (cs : Multiset Call) (r : ResiverPtr) (h : SlotPtr) : Multiset Call :=
  cs.filter (fun c => c.resiver = r ∧ c.slot = h)

/-- The registered `(signal, resiver, slot)` triples of an object. -/
def registrations (self : SignalHandler) : Finset (SignalPtr × ResiverPtr × SlotPtr) :=
  self.m_connected_slots.keys.biUnion (fun g =>
    (subscript self.m_connected_slots g).keys.biUnion (fun r =>
      (self.connected g r).image (fun h => (g, r, h))))

/-- The table after a sequence of emits, the calls dropped. -/
def emits (self : SignalHandler) (l : List (SignalPtr × Nat)) : SignalHandler :=
  l.foldl (fun s q => (s.signal_emit q.1 q.2).1) self

/-- What the table stores at `(g, r)`: no signal key, no receiver key, or a set of slots. -/
def stored (self : SignalHandler) (g : SignalPtr) (r : ResiverPtr) :
    Option (Option (Finset SlotPtr)) :=
  (self.m_connected_slots.lookup g).map (fun d => d.lookup r)

end SignalHandler

namespace World

open SignalHandler

/-- The table at address `o` after `connect(sender, g, resiver, h)`. -/
def connect_at (L : Layout) (sender : Nat) (g : SignalPtr) (resiver : Nat) (h : SlotPtr)
    (o : Nat) (s : SignalHandler) : SignalHandler :=
  let s1 := if o = sender then s._connect g resiver h else s
  if o = resiver then s1._connect SignalPtr.deleted (L.base sender) SlotPtr.disconnect_all
  else s1

/-- A `_connect` that is made only when `c` holds. -/
def connect_if (c : Prop) [Decidable c] (s : SignalHandler) (g : SignalPtr) (r : ResiverPtr)
    (h : SlotPtr) : SignalHandler :=
  if c then s._connect g r h else s

/-- The table at address `o` after the slots in `cs` have run with parameter `p`. -/
def after_calls (L : Layout) (cs : Multiset Call) (p : Nat) (o : Nat) (s : SignalHandler) :
    SignalHandler :=
  if ∃ c ∈ cs, c.slot = SlotPtr.disconnect_all ∧ L.owner c.resiver = some o
  then s.disconnect_all p else s

/-- The heaps built from a set of fresh objects by calls of `connect`, and of `disconnect`
for any registration other than `disconnect_all` under the teardown event. -/
inductive Built (L : Layout) (objs : Finset Nat) : World → Prop where
  | fresh : Built L objs (World.fresh objs)
  | connect {w w1 : World} (A : Nat) (e : SignalPtr) (B : Nat) (h : SlotPtr) :
      Built L objs w → World.connect L w A e B h = some w1 → Built L objs w1
  | disconnect {w w1 : World} (A : Nat) (e : SignalPtr) (B : Nat) (h : SlotPtr) :
      Built L objs w → ¬(e = SignalPtr.deleted ∧ h = SlotPtr.disconnect_all) →
      World.disconnect w A e B h = some w1 → Built L objs w1

end World

namespace World

open SignalHandler

/-- The heaps reached from a set of fresh objects by calls of `connect` with any
arguments, of `disconnect` on events other than `deleted`, and by raises of events other
than `deleted` whose calls run slots of user classes only. -/
inductive Reached (L : Layout) (objs : Finset Nat) : World → Prop where
  | fresh : Reached L objs (World.fresh objs)
  | connect {w w1 : World} (A : Nat) (e : SignalPtr) (B : Nat) (h : SlotPtr) :
      Reached L objs w → World.connect L w A e B h = some w1 → Reached L objs w1
  | disconnect {w w1 : World} (A : Nat) (e : SignalPtr) (B : Nat) (h : SlotPtr) :
      Reached L objs w → e ≠ SignalPtr.deleted →
      World.disconnect w A e B h = some w1 → Reached L objs w1
  | raise {w w1 : World} (A : Nat) (e : SignalPtr) (x : Nat) (calls : Multiset Call) :
      Reached L objs w → e ≠ SignalPtr.deleted →
      World.signal_emit L w A e x = some (w1, calls) →
      (∀ c ∈ calls, c.slot ≠ SlotPtr.disconnect_all) → Reached L objs w1

/-- The teardown wiring is in place: whenever `B` has a slot registered in the table of
`A` under an event other than `deleted`, `B` is live and `A`'s `disconnect_all` is
registered for `A`, under the address of its base subobject, under `deleted` in the
table of `B`. -/
def Wired (L : Layout) (w : World) : Prop :=
  ∀ A a e B h, w A = some a → h ∈ a.connected e B → e ≠ SignalPtr.deleted →
    ∃ b, w B = some b ∧ SlotPtr.disconnect_all ∈ b.connected SignalPtr.deleted (L.base A)

end World

/-! ## The compile-time check -/

namespace SignalHandler

/-- A C++ type, by identity. -/
abbrev TypeId := Nat

/-- The type of a pointer to a method, `R (C::*)(A...)` or `R (C::*)(A...) const`. -/
structure MethodPtr where
  C : TypeId
  R : TypeId
  A : List TypeId
  is_const : Bool
  deriving DecidableEq, Repr

/-- The members of the struct `MethodInfo<T>`. -/
structure MethodInfo where
  ClassType : TypeId
  ReturnType : TypeId
  ArgsTuple : List TypeId
  deriving DecidableEq, Repr

/-- The two specialisations of `MethodInfo`: the one for `R (C::*)(A...)`, and the one
for the `const` method pointer, which inherits the first. -/
def MethodInfo.of (t : MethodPtr) : MethodInfo :=
  ⟨t.C, t.R, t.A⟩

/-- The function `check_signal_slot_types<SenderT, SenderArgT, ResiverT, ResiverArgT>`:
the messages of the `static_assert`s that fail, in the order of the source; the check
accepts when there is none. `is_base_of` is `std::is_base_of` on the classes of the
program. -/
def check_signal_slot_types (is_base_of : TypeId → TypeId → Bool) (SenderT : TypeId)
    (SenderArgT : MethodPtr) (ResiverT : TypeId) (ResiverArgT : MethodPtr) : List String :=
  (if (MethodInfo.of ResiverArgT).ClassType = ResiverT
      ∨ is_base_of (MethodInfo.of ResiverArgT).ClassType ResiverT = true
    then [] else ["Resiver type error"]) ++
  (if (MethodInfo.of SenderArgT).ClassType = SenderT
      ∨ is_base_of (MethodInfo.of SenderArgT).ClassType SenderT = true
    then [] else ["Sender type error"]) ++
  (if (MethodInfo.of SenderArgT).ArgsTuple = (MethodInfo.of ResiverArgT).ArgsTuple
    then [] else ["Signal and slot have different arguments"])

end SignalHandler

namespace World

open SignalHandler

/-- The instantiation of `connect(sender, signal, resiver, slot)` for the types of a call:
`_connect` instantiates `check_signal_slot_types` with them. When a `static_assert`
fails the program does not compile and there is nothing to run; otherwise the call is
the heap operation. The check of the second `_connect` is on the header's own members
`deleted` and `disconnect_all`. -/
def instantiate_connect (L : Layout) (is_base_of : TypeId → TypeId → Bool) (SenderT : TypeId)
    (SenderArgT : MethodPtr) (ResiverT : TypeId) (ResiverArgT : MethodPtr)
    (sender : Nat) (signal : SignalPtr) (resiver : Nat) (slot : SlotPtr) :
    Except (List String) (World → Option World) :=
  match check_signal_slot_types is_base_of SenderT SenderArgT ResiverT ResiverArgT with
  | [] => Except.ok (fun w => World.connect L w sender signal resiver slot)
  | m :: ms => Except.error (m :: ms)

/-- The instantiation of `disconnect(sender, signal, resiver, slot)` for the types of a
call: first `check_signal_slot_types`, then the body. -/
def instantiate_disconnect (is_base_of : TypeId → TypeId → Bool) (SenderT : TypeId)
    (SenderArgT : MethodPtr) (ResiverT : TypeId) (ResiverArgT : MethodPtr)
    (sender : Nat) (signal : SignalPtr) (resiver : Nat) (slot : SlotPtr) :
    Except (List String) (World → Option World) :=
  match check_signal_slot_types is_base_of SenderT SenderArgT ResiverT ResiverArgT with
  | [] => Except.ok (fun w => World.disconnect w sender signal resiver slot)
  | m :: ms => Except.error (m :: ms)

end World

/-! ## Lemmas on tables -/

namespace SignalHandler

theorem mem_forEachValue {K : Type} [DecidableEq K] {V : Type} (f : V → V)
    (m : Finmap (fun _ : K => V)) (k : K) : k ∈ forEachValue f m ↔ k ∈ m := by
  rw [← Finmap.lookup_isSome, ← Finmap.lookup_isSome, lookup_forEachValue]
  cases Finmap.lookup k m <;> simp

theorem subscript_insert {K : Type} [DecidableEq K] {V : Type} [EmptyCollection V]
    (m : Finmap (fun _ : K => V)) (k k' : K) (v : V) :
    subscript (m.insert k v) k' = if k' = k then v else subscript m k' := by
  unfold subscript
  by_cases h : k' = k
  · subst h
    simp [Finmap.lookup_insert]
  · simp [Finmap.lookup_insert_of_ne _ h, h]

theorem lookup_insert_ite {K : Type} [DecidableEq K] {V : Type}
    (m : Finmap (fun _ : K => V)) (k k' : K) (v : V) :
    (m.insert k v).lookup k' = if k' = k then some v else m.lookup k' := by
  by_cases h : k' = k
  · subst h
    simp [Finmap.lookup_insert]
  · simp [Finmap.lookup_insert_of_ne _ h, h]

theorem subscript_erase (m : ResiverData) (k k' : ResiverPtr) :
    subscript (m.erase k) k' = if k' = k then ∅ else subscript m k' := by
  unfold subscript
  by_cases h : k' = k
  · subst h
    simp [Finmap.lookup_erase]
  · simp [Finmap.lookup_erase_ne h, h]

theorem subscript_empty {K : Type} [DecidableEq K] {V : Type} [EmptyCollection V] (k : K) :
    subscript (∅ : Finmap (fun _ : K => V)) k = ∅ := by
  simp [subscript]

theorem subscript_forEachValue_erase (m : SlotTable) (x : ResiverPtr) (g : SignalPtr) :
    subscript (forEachValue (fun signals : ResiverData => signals.erase x) m) g
      = (subscript m g).erase x := by
  unfold subscript
  rw [lookup_forEachValue]
  cases Finmap.lookup g m with
  | none =>
    simp only [Option.map_none', Option.getD_none]
    apply Finmap.ext_lookup
    intro k
    by_cases h : k = x
    · subst h
      simp [Finmap.lookup_erase]
    · simp [Finmap.lookup_erase_ne h]
  | some v => simp

theorem connected_new (g : SignalPtr) (r : ResiverPtr) : SignalHandler.new.connected g r = ∅ := by
  simp [connected, SignalHandler.new, subscript_empty]

theorem subscript_connect (s : SignalHandler) (g g' : SignalPtr) (r : ResiverPtr) (h : SlotPtr) :
    subscript (s._connect g r h).m_connected_slots g'
      = if g' = g then (subscript s.m_connected_slots g).insert r (insert h (s.connected g r))
        else subscript s.m_connected_slots g' := by
  simp [_connect, subscript_insert, connected]

theorem connected_connect (s : SignalHandler) (g g' : SignalPtr) (r r' : ResiverPtr)
    (h : SlotPtr) :
    (s._connect g r h).connected g' r'
      = if g' = g ∧ r' = r then insert h (s.connected g r) else s.connected g' r' := by
  unfold connected
  rw [subscript_connect]
  by_cases hg : g' = g
  · subst hg
    by_cases hr : r' = r
    · subst hr
      simp [subscript_insert, connected]
    · simp [subscript_insert, hr]
  · simp [hg]

theorem subscript_disconnect (s : SignalHandler) (g g' : SignalPtr) (r : ResiverPtr)
    (h : SlotPtr) :
    subscript (s.disconnect g r h).m_connected_slots g'
      = if g' = g then (subscript s.m_connected_slots g).insert r ((s.connected g r).erase h)
        else subscript s.m_connected_slots g' := by
  simp [disconnect, subscript_insert, connected]

theorem connected_disconnect (s : SignalHandler) (g g' : SignalPtr) (r r' : ResiverPtr)
    (h : SlotPtr) :
    (s.disconnect g r h).connected g' r'
      = if g' = g ∧ r' = r then (s.connected g r).erase h else s.connected g' r' := by
  unfold connected
  rw [subscript_disconnect]
  by_cases hg : g' = g
  · subst hg
    by_cases hr : r' = r
    · subst hr
      simp [subscript_insert, connected]
    · simp [subscript_insert, hr]
  · simp [hg]

theorem subscript_disconnect_all (s : SignalHandler) (x : SenderPtr) (g : SignalPtr) :
    subscript (s.disconnect_all x).m_connected_slots g
      = (subscript s.m_connected_slots g).erase x := by
  simp [disconnect_all, subscript_forEachValue_erase]

theorem connected_disconnect_all (s : SignalHandler) (x : SenderPtr) (g : SignalPtr)
    (r : ResiverPtr) :
    (s.disconnect_all x).connected g r = if r = x then ∅ else s.connected g r := by
  unfold connected
  rw [subscript_disconnect_all, subscript_erase]

theorem subscript_signal_emit (s : SignalHandler) (g g' : SignalPtr) (p : Nat) :
    subscript (s.signal_emit g p).1.m_connected_slots g' = subscript s.m_connected_slots g' := by
  simp only [signal_emit, subscript_insert]
  split
  · next h => rw [h]
  · rfl

theorem connected_signal_emit (s : SignalHandler) (g g' : SignalPtr) (p : Nat) (r : ResiverPtr) :
    (s.signal_emit g p).1.connected g' r = s.connected g' r := by
  unfold connected
  rw [subscript_signal_emit]

theorem mem_emitted (data : ResiverData) (p : Nat) (c : Call) :
    c ∈ emitted data p ↔ c.param = p ∧ c.slot ∈ subscript data c.resiver := by
  unfold emitted subscript
  rw [Multiset.mem_bind]
  constructor
  · rintro ⟨⟨r, slots⟩, hd, hc⟩
    rw [Multiset.mem_map] at hc
    obtain ⟨slot, hslot, rfl⟩ := hc
    have hl : Finmap.lookup r data = some slots := Finmap.mem_lookup_iff.2 hd
    simp only [hl, Option.getD_some]
    exact ⟨trivial, hslot⟩
  · rintro ⟨hp, hs⟩
    cases hl : Finmap.lookup c.resiver data with
    | none => simp [hl] at hs
    | some slots =>
      simp only [hl, Option.getD_some] at hs
      refine ⟨⟨c.resiver, slots⟩, Finmap.mem_lookup_iff.1 hl, ?_⟩
      rw [Multiset.mem_map]
      refine ⟨c.slot, hs, ?_⟩
      cases c
      simp_all

theorem nodup_emitted (data : ResiverData) (p : Nat) : (emitted data p).Nodup := by
  unfold emitted
  rw [Multiset.nodup_bind]
  constructor
  · intro d _
    apply Multiset.Nodup.map
    · intro a b hab
      simpa using hab
    · exact d.2.nodup
  · induction data using Finmap.induction_on with
    | H l =>
      refine ⟨l.entries, rfl, ?_⟩
      have hk := List.nodupKeys_iff_pairwise.1 l.nodupKeys
      refine hk.imp ?_
      intro a b hab
      simp only [Function.onFun]
      rw [Multiset.disjoint_left]
      intro c hca hcb
      rw [Multiset.mem_map] at hca hcb
      obtain ⟨_, _, rfl⟩ := hca
      obtain ⟨_, _, h⟩ := hcb
      apply hab
      simpa using (congrArg Call.resiver h).symm

/-- Each stored pair is called once with the parameter of the emit, nothing else is called. -/
theorem count_emitted (data : ResiverData) (p : Nat) (c : Call) :
    (emitted data p).count c
      = if c.param = p ∧ c.slot ∈ subscript data c.resiver then 1 else 0 := by
  rw [Multiset.count_eq_of_nodup (nodup_emitted data p)]
  simp only [mem_emitted]

theorem signal_emit_calls (s : SignalHandler) (g : SignalPtr) (p : Nat) :
    (s.signal_emit g p).2 = emitted (subscript s.m_connected_slots g) p := rfl

theorem mem_signal_emit (s : SignalHandler) (g : SignalPtr) (p : Nat) (c : Call) :
    c ∈ (s.signal_emit g p).2 ↔ c.param = p ∧ c.slot ∈ s.connected g c.resiver := by
  rw [signal_emit_calls, mem_emitted]
  rfl

theorem count_signal_emit (s : SignalHandler) (g : SignalPtr) (p : Nat) (c : Call) :
    (s.signal_emit g p).2.count c
      = if c.param = p ∧ c.slot ∈ s.connected g c.resiver then 1 else 0 := by
  rw [signal_emit_calls, count_emitted]
  rfl

theorem disconnect_all_idem (s : SignalHandler) (x : SenderPtr) :
    (s.disconnect_all x).disconnect_all x = s.disconnect_all x := by
  apply ext_table
  apply Finmap.ext_lookup
  intro g
  simp only [disconnect_all, lookup_forEachValue, Option.map_map]
  cases Finmap.lookup g s.m_connected_slots with
  | none => rfl
  | some v =>
    simp only [Option.map_some', Function.comp_apply, Option.some.injEq]
    apply Finmap.ext_lookup
    intro k
    by_cases h : k = x
    · subst h
      simp [Finmap.lookup_erase]
    · simp [Finmap.lookup_erase_ne h]

theorem calls_to_signal_emit (s : SignalHandler) (g : SignalPtr) (p : Nat) (r : ResiverPtr)
    (h : SlotPtr) :
    calls_to (s.signal_emit g p).2 r h = if h ∈ s.connected g r then {⟨r, h, p⟩} else 0 := by
  rw [Multiset.ext]
  intro c
  unfold calls_to
  by_cases hc : c.resiver = r ∧ c.slot = h
  · rw [Multiset.count_filter_of_pos (p := fun c : Call => c.resiver = r ∧ c.slot = h) hc,
      count_signal_emit]
    obtain ⟨hr, hh⟩ := hc
    subst hr hh
    by_cases hm : c.slot ∈ s.connected g c.resiver
    · simp only [hm, and_true, if_true, Multiset.count_singleton]
      by_cases hp : c.param = p
      · subst hp; simp
      · have : c ≠ ⟨c.resiver, c.slot, p⟩ := fun h => hp (congrArg Call.param h)
        simp [hp, this]
    · simp [hm]
  · rw [Multiset.count_filter_of_neg (p := fun c : Call => c.resiver = r ∧ c.slot = h) hc]
    split
    · rw [Multiset.count_singleton]
      have : c ≠ ⟨r, h, p⟩ := by
        rintro rfl
        exact hc ⟨rfl, rfl⟩
      simp [this]
    · simp

theorem mem_connected_key {s : SignalHandler} {g : SignalPtr} {r : ResiverPtr} {h : SlotPtr}
    (hm : h ∈ s.connected g r) :
    g ∈ s.m_connected_slots ∧ r ∈ subscript s.m_connected_slots g := by
  unfold connected subscript at hm
  constructor
  · by_contra hg
    rw [← Finmap.lookup_eq_none] at hg
    simp [hg] at hm
  · by_contra hr
    unfold subscript at hr
    rw [← Finmap.lookup_eq_none] at hr
    simp [hr] at hm

theorem mem_registrations (s : SignalHandler) (g : SignalPtr) (r : ResiverPtr) (h : SlotPtr) :
    (g, r, h) ∈ s.registrations ↔ h ∈ s.connected g r := by
  unfold registrations
  simp only [Finset.mem_biUnion, Finset.mem_image, Finmap.mem_keys, Prod.mk.injEq]
  constructor
  · rintro ⟨g', _, r', _, h', hm, rfl, rfl, rfl⟩
    exact hm
  · intro hm
    obtain ⟨hg, hr⟩ := mem_connected_key hm
    exact ⟨g, hg, r, hr, h, hm, rfl, rfl, rfl⟩

theorem connected_emits (s : SignalHandler) (l : List (SignalPtr × Nat)) (g : SignalPtr)
    (r : ResiverPtr) : (s.emits l).connected g r = s.connected g r := by
  induction l generalizing s with
  | nil => rfl
  | cons q l ih =>
    simp only [emits, List.foldl_cons] at ih ⊢
    rw [ih, connected_signal_emit]

theorem ext_stored {s t : SignalHandler} (h : ∀ g r, s.stored g r = t.stored g r) : s = t := by
  apply ext_table
  apply Finmap.ext_lookup
  intro g
  have hg := h g
  unfold stored at hg
  cases hs : Finmap.lookup g s.m_connected_slots with
  | none =>
    cases ht : Finmap.lookup g t.m_connected_slots with
    | none => rfl
    | some d => simpa [hs, ht] using hg 0
  | some d =>
    cases ht : Finmap.lookup g t.m_connected_slots with
    | none => simpa [hs, ht] using hg 0
    | some d' =>
      congr 1
      apply Finmap.ext_lookup
      intro r
      simpa [hs, ht] using hg r

theorem stored_connect (s : SignalHandler) (g g' : SignalPtr) (r r' : ResiverPtr) (h : SlotPtr) :
    (s._connect g r h).stored g' r'
      = if g' = g then
          some (if r' = r then some (insert h (s.connected g r))
            else (subscript s.m_connected_slots g).lookup r')
        else s.stored g' r' := by
  unfold stored _connect
  simp only [lookup_insert_ite]
  by_cases hg : g' = g
  · simp [hg, lookup_insert_ite, connected]
  · simp [hg]

theorem lookup_subscript_connect (s : SignalHandler) (g g' : SignalPtr) (r r' : ResiverPtr)
    (h : SlotPtr) :
    (subscript (s._connect g r h).m_connected_slots g').lookup r'
      = if g' = g ∧ r' = r then some (insert h (s.connected g r))
        else (subscript s.m_connected_slots g').lookup r' := by
  rw [subscript_connect]
  by_cases hg : g' = g
  · subst hg
    by_cases hr : r' = r
    · simp [hr, lookup_insert_ite]
    · simp [hr, lookup_insert_ite]
  · simp [hg]

theorem _connect_comm (s : SignalHandler) (g1 g2 : SignalPtr) (r1 r2 : ResiverPtr)
    (h1 h2 : SlotPtr) :
    (s._connect g1 r1 h1)._connect g2 r2 h2 = (s._connect g2 r2 h2)._connect g1 r1 h1 := by
  apply ext_stored
  intro g r
  simp only [stored_connect, connected_connect, lookup_subscript_connect]
  by_cases hg1 : g = g1 <;> by_cases hg2 : g = g2 <;> by_cases hr1 : r = r1 <;>
    by_cases hr2 : r = r2 <;> by_cases hh : h1 = h2 <;>
    simp_all [Finset.Insert.comm]

theorem _connect_idem (s : SignalHandler) (g : SignalPtr) (r : ResiverPtr) (h : SlotPtr) :
    (s._connect g r h)._connect g r h = s._connect g r h := by
  apply ext_stored
  intro g' r'
  simp only [stored_connect, connected_connect, lookup_subscript_connect]
  by_cases hg : g' = g <;> by_cases hr : r' = r <;> simp_all

end SignalHandler

/-! ## Lemmas on the heap -/

namespace Layout

theorem flat_lawful : Layout.flat.Lawful := by
  intro o p
  simp only [Layout.flat, Option.some.injEq]
  exact eq_comm

theorem vptr_lawful : Layout.vptr.Lawful := by
  intro o p
  simp only [Layout.vptr]
  by_cases h : 8 ≤ p
  · simp only [h, if_true, Option.some.injEq]
    omega
  · simp only [h, if_false]
    constructor
    · intro hh; cases hh
    · intro hh; omega

theorem Lawful.owner_base {L : Layout} (hL : L.Lawful) (o : Nat) :
    L.owner (L.base o) = some o :=
  (hL o (L.base o)).2 rfl

theorem Lawful.base_of_owner {L : Layout} (hL : L.Lawful) {o p : Nat}
    (h : L.owner p = some o) : L.base o = p :=
  (hL o p).1 h

end Layout

namespace World

open SignalHandler

theorem _connect_of_live {w : World} {sender : Nat} {s : SignalHandler} (hs : w sender = some s)
    (g : SignalPtr) (r : Nat) (h : SlotPtr) :
    _connect w sender g r h = some (Function.update w sender (some (s._connect g r h))) := by
  simp [_connect, hs]

theorem connect_of_live (L : Layout) {w : World} {A B : Nat} {a b : SignalHandler}
    (ha : w A = some a) (hb : w B = some b) (g : SignalPtr) (h : SlotPtr) :
    connect L w A g B h = some (fun o => (w o).map (connect_at L A g B h o)) := by
  unfold connect
  rw [_connect_of_live ha, Option.some_bind]
  by_cases hAB : B = A
  · subst hAB
    rw [_connect_of_live (Function.update_same _ _ _)]
    congr 1
    funext o
    by_cases ho : o = B
    · subst ho
      simp [connect_at, ha]
    · cases hw : w o <;> simp [connect_at, ho, Function.update_noteq ho, hw]
  · have hb1 : Function.update w A (some (a._connect g B h)) B = some b := by
      rw [Function.update_noteq hAB]; exact hb
    rw [_connect_of_live hb1]
    congr 1
    funext o
    by_cases ho : o = B
    · subst ho
      simp [connect_at, hb, hAB]
    · by_cases hoA : o = A
      · subst hoA
        simp [connect_at, ha, ho]
      · cases hw : w o <;>
          simp [connect_at, ho, hoA, Function.update_noteq ho, Function.update_noteq hoA, hw]

theorem connect_live {L : Layout} {w w1 : World} {A B : Nat} {g : SignalPtr} {h : SlotPtr}
    (hc : connect L w A g B h = some w1) :
    (∃ a, w A = some a) ∧ (∃ b, w B = some b) := by
  unfold connect _connect at hc
  cases ha : w A with
  | none => simp [ha] at hc
  | some a =>
    refine ⟨⟨a, rfl⟩, ?_⟩
    simp only [ha, Option.some_bind] at hc
    by_cases hAB : B = A
    · subst hAB
      exact ⟨a, ha⟩
    · rw [Function.update_noteq hAB] at hc
      cases hb : w B with
      | none => simp [hb] at hc
      | some b => exact ⟨b, rfl⟩

theorem foldl_emit_step_none (L : Layout) (cs : Multiset Call) :
    @Multiset.foldl _ _ (emit_step L) (emit_step_comm L) none cs = none := by
  induction cs using Multiset.induction_on with
  | empty => rfl
  | cons c cs ih =>
    rw [@Multiset.foldl_cons _ _ (emit_step L) (emit_step_comm L)]
    exact ih

theorem emit_step_live {L : Layout} {c : Call} {t : Nat} {w : World} {r : SignalHandler}
    (ht : target L c = some t) (hw : w t = some r) :
    emit_step L (some w) c
      = some (Function.update w t (some (run_slot r c.slot c.param))) := by
  simp only [emit_step, Option.some_bind, slot_handle_live ht hw]

theorem target_disconnect_all {L : Layout} {c : Call} (hs : c.slot = SlotPtr.disconnect_all) :
    target L c = L.owner c.resiver := by
  simp only [target, hs]

theorem target_slot {L : Layout} {c : Call} (hs : c.slot ≠ SlotPtr.disconnect_all) :
    target L c = some c.resiver := by
  unfold target
  cases h : c.slot with
  | disconnect_all => exact absurd h hs
  | slot n => rfl

theorem after_calls_zero (L : Layout) (p o : Nat) (s : SignalHandler) :
    after_calls L 0 p o s = s := by
  simp [after_calls]

theorem after_calls_cons_of {L : Layout} {c : Call} {o : Nat}
    (hc : c.slot = SlotPtr.disconnect_all ∧ L.owner c.resiver = some o) (cs : Multiset Call)
    (p : Nat) (s : SignalHandler) : after_calls L (c ::ₘ cs) p o s = s.disconnect_all p := by
  unfold after_calls
  rw [if_pos]
  exact ⟨c, Multiset.mem_cons_self c cs, hc⟩

theorem after_calls_cons_of_not {L : Layout} {c : Call} {o : Nat}
    (hc : ¬(c.slot = SlotPtr.disconnect_all ∧ L.owner c.resiver = some o)) (cs : Multiset Call)
    (p : Nat) (s : SignalHandler) : after_calls L (c ::ₘ cs) p o s = after_calls L cs p o s := by
  unfold after_calls
  have : (∃ c1 ∈ c ::ₘ cs, c1.slot = SlotPtr.disconnect_all ∧ L.owner c1.resiver = some o)
      ↔ ∃ c1 ∈ cs, c1.slot = SlotPtr.disconnect_all ∧ L.owner c1.resiver = some o := by
    constructor
    · rintro ⟨c1, h1, h2⟩
      rw [Multiset.mem_cons] at h1
      rcases h1 with rfl | h1
      · exact absurd h2 hc
      · exact ⟨c1, h1, h2⟩
    · rintro ⟨c1, h1, h2⟩
      exact ⟨c1, Multiset.mem_cons_of_mem h1, h2⟩
  simp only [this]

theorem after_calls_disconnect_all (L : Layout) (cs : Multiset Call) (p o : Nat)
    (s : SignalHandler) :
    after_calls L cs p o (s.disconnect_all p) = s.disconnect_all p := by
  unfold after_calls
  split
  · exact disconnect_all_idem s p
  · rfl

theorem foldl_emit_step_live (L : Layout) (p : Nat) (cs : Multiset Call) :
    ∀ w : World, (∀ c ∈ cs, c.param = p) →
      (∀ c ∈ cs, ∃ t, target L c = some t ∧ (w t).isSome) →
      @Multiset.foldl _ _ (emit_step L) (emit_step_comm L) (some w) cs
        = some (fun o => (w o).map (after_calls L cs p o)) := by
  induction cs using Multiset.induction_on with
  | empty =>
    intro w _ _
    rw [@Multiset.foldl_zero _ _ (emit_step L) (emit_step_comm L)]
    congr 1
    funext o
    cases w o <;> simp [after_calls_zero]
  | cons c cs ih =>
    intro w hp hl
    rw [@Multiset.foldl_cons _ _ (emit_step L) (emit_step_comm L)]
    obtain ⟨t, ht, hc⟩ := hl c (Multiset.mem_cons_self c cs)
    have hcp : c.param = p := hp c (Multiset.mem_cons_self c cs)
    obtain ⟨r, hr⟩ := Option.isSome_iff_exists.1 hc
    rw [emit_step_live ht hr, ih _ (fun c1 hc1 => hp c1 (Multiset.mem_cons_of_mem hc1))]
    · congr 1
      funext o
      by_cases ho : o = t
      · subst ho
        rw [Function.update_same, hr]
        simp only [Option.map_some', Option.some.injEq]
        by_cases hs : c.slot = SlotPtr.disconnect_all
        · rw [target_disconnect_all hs] at ht
          rw [after_calls_cons_of ⟨hs, ht⟩, hs, hcp]
          exact after_calls_disconnect_all L cs p o r
        · rw [after_calls_cons_of_not (fun h => hs h.1)]
          cases hsl : c.slot with
          | disconnect_all => exact absurd hsl hs
          | slot n => rfl
      · rw [Function.update_noteq ho]
        have hce : ¬(c.slot = SlotPtr.disconnect_all ∧ L.owner c.resiver = some o) := by
          rintro ⟨h1, h2⟩
          rw [target_disconnect_all h1, h2, Option.some.injEq] at ht
          exact ho ht
        cases w o with
        | none => rfl
        | some s => simp only [Option.map_some', after_calls_cons_of_not hce]
    · intro c1 hc1
      obtain ⟨t1, ht1, hl1⟩ := hl c1 (Multiset.mem_cons_of_mem hc1)
      refine ⟨t1, ht1, ?_⟩
      by_cases ho : t1 = t
      · rw [ho, Function.update_same]; rfl
      · rw [Function.update_noteq ho]; exact hl1

theorem foldl_emit_step_dead (L : Layout) (cs : Multiset Call) :
    ∀ w : World, (∃ c ∈ cs, ∀ t, target L c = some t → w t = none) →
      @Multiset.foldl _ _ (emit_step L) (emit_step_comm L) (some w) cs = none := by
  induction cs using Multiset.induction_on with
  | empty =>
    intro w h
    obtain ⟨c, hc, _⟩ := h
    simp at hc
  | cons c cs ih =>
    intro w h
    rw [@Multiset.foldl_cons _ _ (emit_step L) (emit_step_comm L)]
    cases ht : target L c with
    | none =>
      have : emit_step L (some w) c = none := by
        simp only [emit_step, Option.some_bind, slot_handle_no_target ht]
      rw [this, foldl_emit_step_none]
    | some t =>
      cases hr : w t with
      | none =>
        have : emit_step L (some w) c = none := by
          simp only [emit_step, Option.some_bind, slot_handle_dead ht hr]
        rw [this, foldl_emit_step_none]
      | some r =>
        rw [emit_step_live ht hr]
        apply ih
        obtain ⟨c1, hc1, hd⟩ := h
        rw [Multiset.mem_cons] at hc1
        rcases hc1 with rfl | hc1
        · have := hd t ht
          rw [hr] at this
          cases this
        · refine ⟨c1, hc1, ?_⟩
          intro t1 ht1
          by_cases ho : t1 = t
          · have := hd t1 ht1
            rw [ho, hr] at this
            cases this
          · rw [Function.update_noteq ho]
            exact hd t1 ht1

theorem heap_signal_emit_calls {L : Layout} {w w2 : World} {self : Nat} {g : SignalPtr}
    {p : Nat} {calls : Multiset Call} (h : signal_emit L w self g p = some (w2, calls)) :
    ∃ s, w self = some s ∧ calls = (s.signal_emit g p).2 := by
  unfold signal_emit at h
  cases hs : w self with
  | none => simp [hs] at h
  | some s =>
    refine ⟨s, rfl, ?_⟩
    simp only [hs] at h
    split at h
    · cases h
    · simp only [Option.map_eq_some'] at h
      obtain ⟨_, _, h⟩ := h
      exact (congrArg Prod.snd h).symm

theorem connect_at_sender (L : Layout) {A B : Nat} (hAB : A ≠ B) (g : SignalPtr) (h : SlotPtr)
    (s : SignalHandler) : connect_at L A g B h A s = s._connect g B h := by
  simp [connect_at, hAB]

theorem connect_at_resiver (L : Layout) {A B : Nat} (hAB : A ≠ B) (g : SignalPtr) (h : SlotPtr)
    (s : SignalHandler) :
    connect_at L A g B h B s
      = s._connect SignalPtr.deleted (L.base A) SlotPtr.disconnect_all := by
  have : ¬B = A := fun h => hAB h.symm
  simp [connect_at, this]

theorem connect_at_other (L : Layout) {A B o : Nat} (hA : o ≠ A) (hB : o ≠ B) (g : SignalPtr)
    (h : SlotPtr) (s : SignalHandler) : connect_at L A g B h o s = s := by
  simp [connect_at, hA, hB]

theorem mem_connected_connect (s : SignalHandler) (g g' : SignalPtr) (r r' : ResiverPtr)
    (h h' : SlotPtr) :
    h' ∈ (s._connect g r h).connected g' r' ↔
      h' ∈ s.connected g' r' ∨ (g' = g ∧ r' = r ∧ h' = h) := by
  rw [connected_connect]
  by_cases hc : g' = g ∧ r' = r
  · obtain ⟨rfl, rfl⟩ := hc
    simp only [and_self, if_true, Finset.mem_insert, true_and]
    tauto
  · simp only [hc, if_false]
    tauto

theorem connected_connect_at (L : Layout) (A B o : Nat) (g : SignalPtr) (h : SlotPtr)
    (s : SignalHandler) (g' : SignalPtr) (r : ResiverPtr) (h' : SlotPtr) :
    h' ∈ (connect_at L A g B h o s).connected g' r ↔
      h' ∈ s.connected g' r ∨ (o = A ∧ g' = g ∧ r = B ∧ h' = h)
        ∨ (o = B ∧ g' = SignalPtr.deleted ∧ r = L.base A ∧ h' = SlotPtr.disconnect_all) := by
  unfold connect_at
  by_cases hA : o = A
  · subst hA
    by_cases hB : o = B
    · subst hB
      simp only [if_true, mem_connected_connect, true_and]
      tauto
    · simp only [if_true, hB, if_false, mem_connected_connect, true_and, false_and]
      tauto
  · by_cases hB : o = B
    · subst hB
      simp only [hA, if_false, if_true, mem_connected_connect, true_and, false_and]
      tauto
    · simp only [hA, hB, if_false, false_and]
      tauto

theorem connect_at_eq (L : Layout) (A B o : Nat) (g : SignalPtr) (h : SlotPtr)
    (s : SignalHandler) :
    connect_at L A g B h o s
      = connect_if (o = B) (connect_if (o = A) s g B h) SignalPtr.deleted (L.base A)
          SlotPtr.disconnect_all := rfl

theorem connect_if_comm (c1 c2 : Prop) [Decidable c1] [Decidable c2] (s : SignalHandler)
    (g1 g2 : SignalPtr) (r1 r2 : ResiverPtr) (h1 h2 : SlotPtr) :
    connect_if c2 (connect_if c1 s g1 r1 h1) g2 r2 h2
      = connect_if c1 (connect_if c2 s g2 r2 h2) g1 r1 h1 := by
  unfold connect_if
  by_cases hc1 : c1 <;> by_cases hc2 : c2 <;> simp only [hc1, hc2, if_true, if_false]
  exact _connect_comm s g1 g2 r1 r2 h1 h2

theorem connect_if_idem (c : Prop) [Decidable c] (s : SignalHandler) (g : SignalPtr)
    (r : ResiverPtr) (h : SlotPtr) :
    connect_if c (connect_if c s g r h) g r h = connect_if c s g r h := by
  unfold connect_if
  by_cases hc : c <;> simp only [hc, if_true, if_false]
  exact _connect_idem s g r h

theorem connect_at_idem (L : Layout) (A B o : Nat) (g : SignalPtr) (h : SlotPtr)
    (s : SignalHandler) :
    connect_at L A g B h o (connect_at L A g B h o s) = connect_at L A g B h o s := by
  simp only [connect_at_eq]
  rw [connect_if_comm (o = B) (o = A), connect_if_idem, connect_if_idem]

theorem connect_at_comm (L : Layout) (A1 B1 A2 B2 o : Nat) (g1 g2 : SignalPtr) (h1 h2 : SlotPtr)
    (s : SignalHandler) :
    connect_at L A2 g2 B2 h2 o (connect_at L A1 g1 B1 h1 o s)
      = connect_at L A1 g1 B1 h1 o (connect_at L A2 g2 B2 h2 o s) := by
  simp only [connect_at_eq]
  rw [connect_if_comm (o = B1) (o = A2), connect_if_comm (o = A1) (o = A2),
    connect_if_comm (o = B1) (o = B2), connect_if_comm (o = A1) (o = B2)]

/-- The calls of an emit that run `disconnect_all` on the object `o` are the stored
`disconnect_all` slots whose key is the address of the base subobject of `o`. -/
theorem erases_iff (L : Layout) (s : SignalHandler) (g : SignalPtr) (p o : Nat) :
    (∃ c ∈ (s.signal_emit g p).2, c.slot = SlotPtr.disconnect_all ∧ L.owner c.resiver = some o)
      ↔ ∃ r, SlotPtr.disconnect_all ∈ s.connected g r ∧ L.owner r = some o := by
  constructor
  · rintro ⟨c, hc, hs, ho⟩
    rw [mem_signal_emit] at hc
    refine ⟨c.resiver, ?_, ho⟩
    rw [← hs]
    exact hc.2
  · rintro ⟨r, hr, ho⟩
    exact ⟨⟨r, SlotPtr.disconnect_all, p⟩, (mem_signal_emit s g p _).2 ⟨rfl, hr⟩, rfl, ho⟩

/-- When no slot of the emit erases from the iterated map and every call designates a
live object, the emit is defined: it makes the calls of the table and each object's
table is the one left by the slots run on it. -/
theorem heap_signal_emit_of_live (L : Layout) {w : World} {self : Nat} {s : SignalHandler}
    (hs : w self = some s) (g : SignalPtr) (p : Nat)
    (hz : ¬((∃ r, SlotPtr.disconnect_all ∈ s.connected g r ∧ L.owner r = some self)
      ∧ p ∈ subscript s.m_connected_slots g))
    (hd : ∀ r, SlotPtr.disconnect_all ∈ s.connected g r →
      ∃ o, L.owner r = some o ∧ (w o).isSome)
    (hl : ∀ r n, SlotPtr.slot n ∈ s.connected g r → (w r).isSome) :
    signal_emit L w self g p
      = some (fun o => ((Function.update w self (some (s.signal_emit g p).1)) o).map
          (after_calls L (s.signal_emit g p).2 p o), (s.signal_emit g p).2) := by
  have hz1 : ¬((∃ c ∈ (s.signal_emit g p).2,
      c.slot = SlotPtr.disconnect_all ∧ L.owner c.resiver = some self)
      ∧ p ∈ subscript s.m_connected_slots g) := by
    rw [erases_iff]
    exact hz
  unfold signal_emit
  simp only [hs, if_neg hz1]
  rw [foldl_emit_step_live L p]
  · rfl
  · intro c hc
    exact ((mem_signal_emit s g p c).1 hc).1
  · intro c hc
    have hm := ((mem_signal_emit s g p c).1 hc).2
    have hlive : ∀ t, (w t).isSome →
        (Function.update w self (some (s.signal_emit g p).1) t).isSome := by
      intro t ht
      by_cases ho : t = self
      · rw [ho, Function.update_same]; rfl
      · rw [Function.update_noteq ho]; exact ht
    cases hsl : c.slot with
    | disconnect_all =>
      rw [hsl] at hm
      obtain ⟨o, ho, hw⟩ := hd _ hm
      exact ⟨o, by rw [target_disconnect_all hsl, ho], hlive o hw⟩
    | slot n =>
      rw [hsl] at hm
      refine ⟨c.resiver, ?_, hlive _ (hl _ n hm)⟩
      simp only [target, hsl]

/-- A call that designates no live object makes the emit undefined. -/
theorem heap_signal_emit_of_dead (L : Layout) {w : World} {self : Nat} {s : SignalHandler}
    (hs : w self = some s) (g : SignalPtr) (p : Nat) (r : Nat) (h : SlotPtr)
    (hm : h ∈ s.connected g r)
    (hr : ∀ t, target L ⟨r, h, p⟩ = some t → w t = none) :
    signal_emit L w self g p = none := by
  unfold signal_emit
  simp only [hs]
  split
  · rfl
  · rw [foldl_emit_step_dead]
    · rfl
    · refine ⟨⟨r, h, p⟩, (mem_signal_emit s g p _).2 ⟨rfl, hm⟩, ?_⟩
      intro t ht
      have hr1 := hr t ht
      have hne : t ≠ self := by
        rintro rfl
        rw [hs] at hr1
        cases hr1
      rw [Function.update_noteq hne]
      exact hr1

end World

namespace World

open SignalHandler

theorem after_calls_of {L : Layout} {s : SignalHandler} {g : SignalPtr} {o : Nat}
    (h : ∃ r, SlotPtr.disconnect_all ∈ s.connected g r ∧ L.owner r = some o) (p : Nat)
    (t : SignalHandler) :
    after_calls L (s.signal_emit g p).2 p o t = t.disconnect_all p := by
  unfold after_calls
  rw [if_pos ((erases_iff L s g p o).2 h)]

theorem after_calls_of_not {L : Layout} {s : SignalHandler} {g : SignalPtr} {o : Nat}
    (h : ¬∃ r, SlotPtr.disconnect_all ∈ s.connected g r ∧ L.owner r = some o) (p : Nat)
    (t : SignalHandler) :
    after_calls L (s.signal_emit g p).2 p o t = t := by
  unfold after_calls
  rw [if_neg (fun hh => h ((erases_iff L s g p o).1 hh))]

/-- The destruction of a live object `B` is defined when every `disconnect_all` stored
under its teardown event is stored under the address of the base subobject of a live
object other than `B`, and every other slot stored there belongs to a live object: `B` is
gone, and `disconnect_all(B)` has run on every object so designated. -/
theorem destroy_of_live (L : Layout) {w : World} {B : Nat} {b : SignalHandler}
    (hB : w B = some b)
    (hsafe : ∀ r, SlotPtr.disconnect_all ∈ b.connected SignalPtr.deleted r →
      ∃ o, L.owner r = some o ∧ o ≠ B ∧ (w o).isSome)
    (hlive : ∀ r n, SlotPtr.slot n ∈ b.connected SignalPtr.deleted r → (w r).isSome) :
    ∃ w2, destroy L w B = some (w2, (b.signal_emit SignalPtr.deleted B).2) ∧ w2 B = none ∧
      ∀ o, o ≠ B → w2 o
        = (w o).map (after_calls L (b.signal_emit SignalPtr.deleted B).2 B o) := by
  have hz : ¬((∃ r, SlotPtr.disconnect_all ∈ b.connected SignalPtr.deleted r
      ∧ L.owner r = some B) ∧ B ∈ subscript b.m_connected_slots SignalPtr.deleted) := by
    rintro ⟨⟨r, hr, ho⟩, _⟩
    obtain ⟨o, ho1, hne, _⟩ := hsafe r hr
    rw [ho, Option.some.injEq] at ho1
    exact hne ho1.symm
  have hd : ∀ r, SlotPtr.disconnect_all ∈ b.connected SignalPtr.deleted r →
      ∃ o, L.owner r = some o ∧ (w o).isSome := by
    intro r hr
    obtain ⟨o, ho, _, hl⟩ := hsafe r hr
    exact ⟨o, ho, hl⟩
  refine ⟨Function.update (fun o =>
      ((Function.update w B (some (b.signal_emit SignalPtr.deleted B).1)) o).map
        (after_calls L (b.signal_emit SignalPtr.deleted B).2 B o)) B none, ?_, ?_, ?_⟩
  · unfold destroy
    rw [heap_signal_emit_of_live L hB SignalPtr.deleted B hz hd hlive]
    rfl
  · exact Function.update_same _ _ _
  · intro o ho
    simp only [Function.update_noteq ho]

/-- In a built heap the live objects are the fresh ones, and every registration other
than the teardown wiring itself belongs to a live receiver and is backed by the wiring:
the emitter's `disconnect_all` is registered under the receiver's `deleted`, keyed by
the address of the emitter's base subobject. -/
theorem Built.wired {L : Layout} {objs : Finset Nat} {w : World} (hw : Built L objs w) :
    (∀ o, (w o).isSome ↔ o ∈ objs) ∧
    ∀ A a e B h, w A = some a → h ∈ a.connected e B →
      ¬(e = SignalPtr.deleted ∧ h = SlotPtr.disconnect_all) →
        ∃ b, w B = some b ∧
          SlotPtr.disconnect_all ∈ b.connected SignalPtr.deleted (L.base A) := by
  induction hw with
  | fresh =>
    constructor
    · intro o
      by_cases ho : o ∈ objs <;> simp [World.fresh, ho]
    · intro A a e B h hA hm
      by_cases ho : A ∈ objs
      · simp only [World.fresh, ho, if_true, Option.some.injEq] at hA
        subst hA
        simp [connected_new] at hm
      · simp [World.fresh, ho] at hA
  | @connect w w1 A0 e0 B0 h0 _ hc ih =>
    obtain ⟨hlive, hwire⟩ := ih
    obtain ⟨⟨a0, hA0⟩, ⟨b0, hB0⟩⟩ := connect_live hc
    rw [connect_of_live L hA0 hB0, Option.some.injEq] at hc
    subst hc
    constructor
    · intro o
      rw [← hlive o]
      cases hwo : w o <;> simp [hwo]
    · intro A a e B h hA hm hne
      cases hwA : w A with
      | none => simp [hwA] at hA
      | some a1 =>
        simp only [hwA, Option.map_some', Option.some.injEq] at hA
        subst hA
        rw [connected_connect_at] at hm
        rcases hm with hm | ⟨rfl, rfl, rfl, rfl⟩ | ⟨_, rfl, _, rfl⟩
        · obtain ⟨b, hb, hbm⟩ := hwire A a1 e B h hwA hm hne
          refine ⟨connect_at L A0 e0 B0 h0 B b, by simp [hb], ?_⟩
          rw [connected_connect_at]
          exact Or.inl hbm
        · refine ⟨connect_at L A e B h B b0, by simp [hB0], ?_⟩
          rw [connected_connect_at]
          exact Or.inr (Or.inr ⟨rfl, rfl, rfl, rfl⟩)
        · exact absurd ⟨rfl, rfl⟩ hne
  | @disconnect w w1 A0 e0 B0 h0 _ hne0 hc ih =>
    obtain ⟨hlive, hwire⟩ := ih
    unfold World.disconnect at hc
    cases hA0 : w A0 with
    | none => simp [hA0] at hc
    | some a0 =>
      simp only [hA0, Option.some.injEq] at hc
      subst hc
      have hsub : ∀ e B h, h ∈ (a0.disconnect e0 B0 h0).connected e B → h ∈ a0.connected e B := by
        intro e B h hm
        rw [connected_disconnect] at hm
        split at hm
        · next hc =>
          obtain ⟨rfl, rfl⟩ := hc
          exact (Finset.mem_erase.1 hm).2
        · exact hm
      have hold : ∀ A a e B h, Function.update w A0 (some (a0.disconnect e0 B0 h0)) A = some a →
          h ∈ a.connected e B → ∃ a1, w A = some a1 ∧ h ∈ a1.connected e B := by
        intro A a e B h hA hm
        by_cases hAA : A = A0
        · subst hAA
          rw [Function.update_same, Option.some.injEq] at hA
          subst hA
          exact ⟨a0, hA0, hsub e B h hm⟩
        · rw [Function.update_noteq hAA] at hA
          exact ⟨a, hA, hm⟩
      have hkeep : ∀ o, (Function.update w A0 (some (a0.disconnect e0 B0 h0)) o).isSome
          = (w o).isSome := by
        intro o
        by_cases ho : o = A0
        · subst ho
          simp [hA0]
        · rw [Function.update_noteq ho]
      constructor
      · intro o
        rw [hkeep, hlive o]
      · intro A a e B h hA hm hne
        obtain ⟨a1, hA1, hm1⟩ := hold A a e B h hA hm
        obtain ⟨b, hb, hbm⟩ := hwire A a1 e B h hA1 hm1 hne
        by_cases hBA : B = A0
        · subst hBA
          rw [hA0, Option.some.injEq] at hb
          subst hb
          refine ⟨a0.disconnect e0 B0 h0, Function.update_same _ _ _, ?_⟩
          rw [connected_disconnect]
          split
          · next hc =>
            rw [Finset.mem_erase]
            refine ⟨?_, ?_⟩
            · intro hh
              exact hne0 ⟨hc.1.symm, hh.symm⟩
            · obtain ⟨rfl, rfl⟩ := hc
              exact hbm
          · exact hbm
        · exact ⟨b, by rw [Function.update_noteq hBA]; exact hb, hbm⟩

/-- A defined emit made the calls of the emitter's table, and left at every address the
table that the slots run there produce. -/
theorem heap_signal_emit_inv {L : Layout} {w w3 : World} {self : Nat} {g : SignalPtr}
    {p : Nat} {calls : Multiset Call} (h : signal_emit L w self g p = some (w3, calls)) :
    ∃ s, w self = some s ∧ calls = (s.signal_emit g p).2 ∧
      ∀ o, w3 o = ((Function.update w self (some (s.signal_emit g p).1)) o).map
        (after_calls L calls p o) := by
  unfold signal_emit at h
  cases hs : w self with
  | none => simp [hs] at h
  | some s =>
    refine ⟨s, rfl, ?_⟩
    simp only [hs] at h
    split at h
    · cases h
    · by_cases hl : ∀ c ∈ (s.signal_emit g p).2, ∃ t, target L c = some t ∧
          (Function.update w self (some (s.signal_emit g p).1) t).isSome
      · rw [foldl_emit_step_live L p _ _
          (fun c hc => ((mem_signal_emit s g p c).1 hc).1) hl] at h
        simp only [Option.map_some', Option.some.injEq, Prod.mk.injEq] at h
        obtain ⟨h1, h2⟩ := h
        subst h2
        refine ⟨rfl, ?_⟩
        intro o
        rw [← h1]
      · have hd : ∃ c ∈ (s.signal_emit g p).2, ∀ t, target L c = some t →
            Function.update w self (some (s.signal_emit g p).1) t = none := by
          by_contra hcon
          apply hl
          intro c hc
          by_contra hno
          apply hcon
          refine ⟨c, hc, ?_⟩
          intro t ht
          cases hr : Function.update w self (some (s.signal_emit g p).1) t with
          | none => rfl
          | some v =>
            exact absurd ⟨t, ht, by rw [hr]; rfl⟩ hno
        rw [foldl_emit_step_dead L _ _ hd] at h
        cases h

/-- A defined raise whose calls run slots of user classes only changes one thing on the
heap: the table of the emitter gets the key of the signal. -/
theorem heap_signal_emit_user {L : Layout} {w w1 : World} {A : Nat} {e : SignalPtr} {x : Nat}
    {calls : Multiset Call} (h : signal_emit L w A e x = some (w1, calls))
    (hu : ∀ c ∈ calls, c.slot ≠ SlotPtr.disconnect_all) :
    ∃ s, w A = some s ∧ calls = (s.signal_emit e x).2 ∧
      w1 = Function.update w A (some (s.signal_emit e x).1) := by
  obtain ⟨s, hs, hc, hw1⟩ := heap_signal_emit_inv h
  refine ⟨s, hs, hc, ?_⟩
  funext o
  rw [hw1 o]
  have hid : ∀ t, after_calls L calls x o t = t := by
    intro t
    unfold after_calls
    split
    · next hin =>
      obtain ⟨c, hc1, hc2, _⟩ := hin
      exact absurd hc2 (hu c hc1)
    · rfl
  cases hv : Function.update w A (some (s.signal_emit e x).1) o with
  | none => rfl
  | some t => simp [hid]

/-- A raise whose stored slots are slots of user classes on live objects is defined, and
changes one thing on the heap: the table of the emitter gets the key of the signal. -/
theorem heap_signal_emit_of_user (L : Layout) {w : World} {self : Nat} {s : SignalHandler}
    (hs : w self = some s) (g : SignalPtr) (p : Nat)
    (hu : ∀ r k, k ∈ s.connected g r → k ≠ SlotPtr.disconnect_all ∧ (w r).isSome) :
    signal_emit L w self g p
      = some (Function.update w self (some (s.signal_emit g p).1), (s.signal_emit g p).2) := by
  have h1 := heap_signal_emit_of_live L hs g p
    (fun hz => by
      obtain ⟨⟨r, hr, _⟩, _⟩ := hz
      exact (hu r _ hr).1 rfl)
    (fun r hr => absurd rfl (hu r _ hr).1)
    (fun r n hr => (hu r _ hr).2)
  obtain ⟨s1, hs1, _, hw⟩ := heap_signal_emit_user h1
    (fun c hc => (hu c.resiver c.slot ((mem_signal_emit _ g p c).1 hc).2).1)
  rw [hs, Option.some.injEq] at hs1
  subst hs1
  rw [h1, hw]

theorem wired_fresh (L : Layout) (objs : Finset Nat) : Wired L (World.fresh objs) := by
  intro A a e B h hA hm _
  by_cases ho : A ∈ objs
  · simp only [World.fresh, ho, if_true, Option.some.injEq] at hA
    subst hA
    simp [connected_new] at hm
  · simp [World.fresh, ho] at hA

theorem wired_connect {L : Layout} {w w1 : World} {A0 B0 : Nat} {e0 : SignalPtr} {h0 : SlotPtr}
    (hw : Wired L w) (hc : World.connect L w A0 e0 B0 h0 = some w1) : Wired L w1 := by
  obtain ⟨⟨a0, hA0⟩, ⟨b0, hB0⟩⟩ := connect_live hc
  rw [connect_of_live L hA0 hB0, Option.some.injEq] at hc
  subst hc
  intro A a e B h hA hm he
  cases hwA : w A with
  | none => simp [hwA] at hA
  | some a1 =>
    simp only [hwA, Option.map_some', Option.some.injEq] at hA
    subst hA
    rw [connected_connect_at] at hm
    rcases hm with hm | ⟨rfl, rfl, rfl, rfl⟩ | ⟨_, hd, _, _⟩
    · obtain ⟨b, hb, hbm⟩ := hw A a1 e B h hwA hm he
      refine ⟨connect_at L A0 e0 B0 h0 B b, by simp [hb], ?_⟩
      rw [connected_connect_at]
      exact Or.inl hbm
    · refine ⟨connect_at L A e B h B b0, by simp [hB0], ?_⟩
      rw [connected_connect_at]
      exact Or.inr (Or.inr ⟨rfl, rfl, rfl, rfl⟩)
    · exact absurd hd he

theorem wired_disconnect {L : Layout} {w w1 : World} {A0 B0 : Nat} {e0 : SignalPtr}
    {h0 : SlotPtr} (hw : Wired L w) (he0 : e0 ≠ SignalPtr.deleted)
    (hc : World.disconnect w A0 e0 B0 h0 = some w1) : Wired L w1 := by
  unfold World.disconnect at hc
  cases hA0 : w A0 with
  | none => simp [hA0] at hc
  | some a0 =>
    simp only [hA0, Option.some.injEq] at hc
    subst hc
    have hsub : ∀ e B h, h ∈ (a0.disconnect e0 B0 h0).connected e B → h ∈ a0.connected e B := by
      intro e B h hm
      rw [connected_disconnect] at hm
      split at hm
      · next hc =>
        obtain ⟨rfl, rfl⟩ := hc
        exact (Finset.mem_erase.1 hm).2
      · exact hm
    have hdel : ∀ r, (a0.disconnect e0 B0 h0).connected SignalPtr.deleted r
        = a0.connected SignalPtr.deleted r := by
      intro r
      rw [connected_disconnect]
      have : ¬(SignalPtr.deleted = e0 ∧ r = B0) := fun hh => he0 hh.1.symm
      rw [if_neg this]
    intro A a e B h hA hm he
    have hold : ∃ a1, w A = some a1 ∧ h ∈ a1.connected e B := by
      by_cases hAA : A = A0
      · subst hAA
        rw [Function.update_same, Option.some.injEq] at hA
        subst hA
        exact ⟨a0, hA0, hsub e B h hm⟩
      · rw [Function.update_noteq hAA] at hA
        exact ⟨a, hA, hm⟩
    obtain ⟨a1, hA1, hm1⟩ := hold
    obtain ⟨b, hb, hbm⟩ := hw A a1 e B h hA1 hm1 he
    by_cases hBA : B = A0
    · subst hBA
      rw [hA0, Option.some.injEq] at hb
      subst hb
      refine ⟨a0.disconnect e0 B0 h0, Function.update_same _ _ _, ?_⟩
      rw [hdel]
      exact hbm
    · exact ⟨b, by rw [Function.update_noteq hBA]; exact hb, hbm⟩

theorem wired_raise {L : Layout} {w w1 : World} {A0 : Nat} {e0 : SignalPtr} {x : Nat}
    {calls : Multiset Call} (hw : Wired L w)
    (hr : World.signal_emit L w A0 e0 x = some (w1, calls))
    (hu : ∀ c ∈ calls, c.slot ≠ SlotPtr.disconnect_all) : Wired L w1 := by
  obtain ⟨s, hs, _, hw1⟩ := heap_signal_emit_user hr hu
  subst hw1
  intro A a e B h hA hm he
  have hold : ∃ a1, w A = some a1 ∧ h ∈ a1.connected e B := by
    by_cases hAA : A = A0
    · subst hAA
      rw [Function.update_same, Option.some.injEq] at hA
      subst hA
      rw [connected_signal_emit] at hm
      exact ⟨s, hs, hm⟩
    · rw [Function.update_noteq hAA] at hA
      exact ⟨a, hA, hm⟩
  obtain ⟨a1, hA1, hm1⟩ := hold
  obtain ⟨b, hb, hbm⟩ := hw A a1 e B h hA1 hm1 he
  by_cases hBA : B = A0
  · subst hBA
    rw [hs, Option.some.injEq] at hb
    subst hb
    refine ⟨(s.signal_emit e0 x).1, Function.update_same _ _ _, ?_⟩
    rw [connected_signal_emit]
    exact hbm
  · exact ⟨b, by rw [Function.update_noteq hBA]; exact hb, hbm⟩

theorem Reached.keeps_wiring {L : Layout} {objs : Finset Nat} {w : World}
    (hw : Reached L objs w) : Wired L w := by
  induction hw with
  | fresh => exact wired_fresh L objs
  | connect A e B h _ hc ih => exact wired_connect ih hc
  | disconnect A e B h _ he hc ih => exact wired_disconnect ih he hc
  | raise A e x calls _ _ hr hu ih => exact wired_raise ih hr hu

end World

namespace SignalHandler

theorem stored_disconnect_all (t : SignalHandler) (s : SenderPtr) (g : SignalPtr)
    (r : ResiverPtr) (hr : r ≠ s) : (t.disconnect_all s).stored g r = t.stored g r := by
  unfold stored disconnect_all
  rw [lookup_forEachValue, Option.map_map]
  cases Finmap.lookup g t.m_connected_slots with
  | none => rfl
  | some d => simp [Finmap.lookup_erase_ne hr]

/-- The `(receiver, slot)` pairs that an emit calls do not depend on its parameters. -/
theorem emitted_pairs (data : ResiverData) (p : Nat) :
    (emitted data p).map (fun c => (c.resiver, c.slot))
      = data.entries.bind (fun d => d.2.val.map (fun slot => (d.1, slot))) := by
  unfold emitted
  rw [Multiset.map_bind]
  congr 1
  funext d
  rw [Multiset.map_map]
  rfl

end SignalHandler

/-! ## Properties of connect, disconnect, raise and destruction -/

open SignalHandler

/-- C1: for live objects `A` (emitter) and `B` (subscriber), distinct or not, and whatever
the tables held before, `connect(A, e, B, h)` succeeds and afterwards one raise of `e` on `A`
with argument `x` calls `h` on `B` exactly once, and that call carries `x`: the calls of
`h` on `B` are the single call `(B, h, x)`, in the dispatch loop of `A` and in every
defined run of the raise on the heap. -/
theorem C1_connect_then_raise_invokes_once (L : Layout) (w : World) (A B : Nat) (a b : SignalHandler)
    (hA : w A = some a) (hB : w B = some b) (e : SignalPtr) (h : SlotPtr) (x : Nat) :
    ∃ w1 a1, World.connect L w A e B h = some w1 ∧ w1 A = some a1 ∧
      calls_to (a1.signal_emit e x).2 B h = {⟨B, h, x⟩} ∧
      ∀ w2 calls, World.signal_emit L w1 A e x = some (w2, calls) →
        calls_to calls B h = {⟨B, h, x⟩} := by
  have hreg : h ∈ (World.connect_at L A e B h A a).connected e B := by
    rw [World.connected_connect_at]
    exact Or.inr (Or.inl ⟨rfl, rfl, rfl, rfl⟩)
  refine ⟨_, World.connect_at L A e B h A a, World.connect_of_live L hA hB e h, ?_, ?_, ?_⟩
  · simp [hA]
  · rw [calls_to_signal_emit, if_pos hreg]
  · intro w2 calls hemit
    obtain ⟨s, hs, hcalls⟩ := World.heap_signal_emit_calls hemit
    simp only [hA, Option.map_some', Option.some.injEq] at hs
    subst hs hcalls
    rw [calls_to_signal_emit, if_pos hreg]

theorem C1_connect_then_raise_invokes_once_witness :
    World.fresh {1, 2} 1 = some SignalHandler.new ∧
    World.fresh {1, 2} 2 = some SignalHandler.new ∧
    ∃ w1 a1, World.connect Layout.flat (World.fresh {1, 2}) 1 (SignalPtr.signal 0) 2 (SlotPtr.slot 0)
        = some w1 ∧ w1 1 = some a1 ∧
      calls_to (a1.signal_emit (SignalPtr.signal 0) 314).2 2 (SlotPtr.slot 0)
        = {⟨2, SlotPtr.slot 0, 314⟩} ∧
      ∀ w2 calls, World.signal_emit Layout.flat w1 1 (SignalPtr.signal 0) 314 = some (w2, calls) →
        calls_to calls 2 (SlotPtr.slot 0) = {⟨2, SlotPtr.slot 0, 314⟩} :=
  ⟨by simp [World.fresh], by simp [World.fresh],
    C1_connect_then_raise_invokes_once Layout.flat (World.fresh {1, 2}) 1 2 SignalHandler.new
      SignalHandler.new (by simp [World.fresh]) (by simp [World.fresh]) (SignalPtr.signal 0)
      (SlotPtr.slot 0) 314⟩

/-- C2: for a live emitter `A`, whatever its table held before (also `h` registered for
`(e, B)`), `disconnect(A, e, B, h)` succeeds and afterwards every raise of `e` on `A`,
also after any number of other raises, calls `h` on `B` zero times. -/
theorem C2_disconnect_then_raise_invokes_none (L : Layout) (w : World) (A B : Nat) (a : SignalHandler)
    (hA : w A = some a) (e : SignalPtr) (h : SlotPtr) :
    ∃ w1 a1, World.disconnect w A e B h = some w1 ∧ w1 A = some a1 ∧
      (∀ (l : List (SignalPtr × Nat)) (x : Nat),
        calls_to ((a1.emits l).signal_emit e x).2 B h = 0) ∧
      ∀ x w2 calls, World.signal_emit L w1 A e x = some (w2, calls) →
        calls_to calls B h = 0 := by
  have hreg : ∀ l : List (SignalPtr × Nat), h ∉ ((a.disconnect e B h).emits l).connected e B := by
    intro l
    rw [connected_emits, connected_disconnect]
    simp
  refine ⟨Function.update w A (some (a.disconnect e B h)), a.disconnect e B h,
    by simp [World.disconnect, hA], Function.update_same _ _ _, ?_, ?_⟩
  · intro l x
    rw [calls_to_signal_emit, if_neg (hreg l)]
  · intro x w2 calls hemit
    obtain ⟨s, hs, hcalls⟩ := World.heap_signal_emit_calls hemit
    simp only [Function.update_same, Option.some.injEq] at hs
    subst hs hcalls
    have h0 : h ∉ (a.disconnect e B h).connected e B := hreg []
    rw [calls_to_signal_emit, if_neg h0]

theorem C2_disconnect_then_raise_invokes_none_witness :
    Function.update (World.fresh {1, 2}) 1
        (some (SignalHandler.new._connect (SignalPtr.signal 0) 2 (SlotPtr.slot 0))) 1
      = some (SignalHandler.new._connect (SignalPtr.signal 0) 2 (SlotPtr.slot 0)) ∧
    ∃ w1 a1,
      World.disconnect (Function.update (World.fresh {1, 2}) 1
        (some (SignalHandler.new._connect (SignalPtr.signal 0) 2 (SlotPtr.slot 0))))
        1 (SignalPtr.signal 0) 2 (SlotPtr.slot 0) = some w1 ∧ w1 1 = some a1 ∧
      (∀ (l : List (SignalPtr × Nat)) (x : Nat),
        calls_to ((a1.emits l).signal_emit (SignalPtr.signal 0) x).2 2 (SlotPtr.slot 0) = 0) ∧
      ∀ x w2 calls, World.signal_emit Layout.flat w1 1 (SignalPtr.signal 0) x = some (w2, calls) →
        calls_to calls 2 (SlotPtr.slot 0) = 0 :=
  ⟨Function.update_same _ _ _,
    C2_disconnect_then_raise_invokes_none Layout.flat _ 1 2
      (SignalHandler.new._connect (SignalPtr.signal 0) 2 (SlotPtr.slot 0))
      (Function.update_same _ _ _) (SignalPtr.signal 0) (SlotPtr.slot 0)⟩

/-- C3, as stated, fails, in three ways, each for distinct live objects.
Objects without virtual members at `1` (for `A`) and `2` (for `B`): when `B` was connected
to itself before, after `connect(A, signal 0, B, slot 0)` the destructor of `B` runs
`disconnect_all(B)` on `B` while it iterates the entry of `B`, and is undefined; and when
`B` was subscribed to an emitter `3` that is destroyed first, the destructor of `B` calls
`disconnect_all` on the destroyed `3`, and is undefined.
Objects with virtual members at `100` (for `A`) and `200` (for `B`): when `B` was
connected as an emitter to `A` before, after `connect(A, signal 0, B, slot 0)` the
destruction of `B` is defined and `A` is live, yet `A` still stores `disconnect_all`
under `deleted`, keyed by the address `208` of the base subobject of `B`; the raise of
`deleted` on `A` that its destructor makes contains that call, which runs on the
destroyed `B`, and is undefined. -/
theorem C3_subscriber_teardown_counterexample :
    (((World.connect Layout.flat (World.fresh {1, 2}) 2 (SignalPtr.signal 0) 2
          (SlotPtr.slot 0)).bind
        (fun w => World.connect Layout.flat w 1 (SignalPtr.signal 0) 2 (SlotPtr.slot 0))).map
      (fun w => ((w 1).isSome, (w 2).isSome, (World.destroy Layout.flat w 2).isSome)))
      = some (true, true, false) ∧
    ((((World.connect Layout.flat (World.fresh {1, 2, 3}) 3 (SignalPtr.signal 0) 2
          (SlotPtr.slot 0)).bind
        (fun w => World.destroy Layout.flat w 3)).bind
        (fun r => World.connect Layout.flat r.1 1 (SignalPtr.signal 0) 2 (SlotPtr.slot 0))).map
      (fun w => ((w 1).isSome, (w 2).isSome, (World.destroy Layout.flat w 2).isSome)))
      = some (true, true, false) ∧
    ((((World.connect Layout.vptr (World.fresh {100, 200}) 200 (SignalPtr.signal 1) 100
          (SlotPtr.slot 1)).bind
        (fun w => World.connect Layout.vptr w 100 (SignalPtr.signal 0) 200 (SlotPtr.slot 0))).bind
        (fun w => World.destroy Layout.vptr w 200)).map
      (fun r => ((r.1 200).isSome,
        (r.1 100).map (fun a =>
          (decide (SlotPtr.disconnect_all ∈ a.connected SignalPtr.deleted 208),
           (a.signal_emit SignalPtr.deleted 100).2.count ⟨208, SlotPtr.disconnect_all, 100⟩)),
        World.target Layout.vptr ⟨208, SlotPtr.disconnect_all, 100⟩,
        (World.destroy Layout.vptr r.1 100).isSome)))
      = some (false, some (true, 1), some 200, false) := by
  decide

/-- C3 (amended): for distinct live `A` and `B`, whatever `A`'s table held before, when
the destruction of `B` is defined behaviour, that is, every `disconnect_all` stored under
`B`'s teardown event is stored under the address of the base subobject of a live object
other than `B`, and every other slot stored there belongs to a live object: after
`connect(A, e, B, h)` the destruction of `B` is defined, `B` is gone, `A`'s table is
the one after the connect with the key `B` erased under every event, so it holds no
entry keyed by the address of `B` under any event and a later raise of any event on `A`
makes no call through the address of `B`. The only calls of `A` that can still run on
`B` are those of a `disconnect_all` that `A` stored before under the address of the
base subobject of `B`, where that address is not the address of `B`. -/
theorem C3_destroyed_subscriber_is_disconnected (L : Layout) (hL : L.Lawful) (w : World)
    (A B : Nat) (a b : SignalHandler)
    (hA : w A = some a) (hB : w B = some b) (hAB : A ≠ B)
    (hsafe : ∀ r, SlotPtr.disconnect_all ∈ b.connected SignalPtr.deleted r →
      ∃ o, L.owner r = some o ∧ o ≠ B ∧ (w o).isSome)
    (hlive : ∀ r n, SlotPtr.slot n ∈ b.connected SignalPtr.deleted r → (w r).isSome)
    (e : SignalPtr) (h : SlotPtr) :
    ∃ w1 w2 calls a2, World.connect L w A e B h = some w1 ∧
      World.destroy L w1 B = some (w2, calls) ∧ w2 B = none ∧ w2 A = some a2 ∧
      a2 = (a._connect e B h).disconnect_all B ∧
      (∀ g, B ∉ subscript a2.m_connected_slots g) ∧
      (∀ g k, k ∉ a2.connected g B) ∧
      (∀ g x c, c ∈ (a2.signal_emit g x).2 → c.resiver ≠ B) ∧
      ∀ g x c, c ∈ (a2.signal_emit g x).2 → World.target L c = some B →
        c.slot = SlotPtr.disconnect_all ∧ c.resiver = L.base B ∧ L.base B ≠ B ∧
          SlotPtr.disconnect_all ∈ a.connected g (L.base B) := by
  have hBA : B ≠ A := fun h => hAB h.symm
  obtain ⟨W1, hW1⟩ : ∃ W1 : World, W1 = fun o => (w o).map (World.connect_at L A e B h o) :=
    ⟨_, rfl⟩
  have hA1 : W1 A = some (a._connect e B h) := by
    rw [hW1]
    simp [hA, World.connect_at_sender L hAB]
  have hB1 : W1 B
      = some (b._connect SignalPtr.deleted (L.base A) SlotPtr.disconnect_all) := by
    rw [hW1]
    simp [hB, World.connect_at_resiver L hAB]
  have hsame : ∀ o, (W1 o).isSome = (w o).isSome := by
    intro o
    rw [hW1]
    cases hwo : w o <;> simp [hwo]
  have hsafe1 : ∀ r, SlotPtr.disconnect_all ∈
      (b._connect SignalPtr.deleted (L.base A) SlotPtr.disconnect_all).connected
        SignalPtr.deleted r → ∃ o, L.owner r = some o ∧ o ≠ B ∧ (W1 o).isSome := by
    intro r hr
    rw [World.mem_connected_connect] at hr
    rcases hr with hm | ⟨_, rfl, _⟩
    · obtain ⟨o, ho, hne, hl⟩ := hsafe r hm
      exact ⟨o, ho, hne, by rw [hsame]; exact hl⟩
    · exact ⟨A, hL.owner_base A, hAB, by rw [hsame, hA]; simp only [Option.isSome_some]⟩
  have hlive1 : ∀ r n, SlotPtr.slot n ∈
      (b._connect SignalPtr.deleted (L.base A) SlotPtr.disconnect_all).connected
        SignalPtr.deleted r → (W1 r).isSome := by
    intro r n hr
    rw [World.mem_connected_connect] at hr
    rcases hr with hm | ⟨_, _, hh⟩
    · rw [hsame]
      exact hlive r n hm
    · cases hh
  obtain ⟨w2, hd, hgone, hrest⟩ := World.destroy_of_live L hB1 hsafe1 hlive1
  have hwired : ∃ r, SlotPtr.disconnect_all ∈
      (b._connect SignalPtr.deleted (L.base A) SlotPtr.disconnect_all).connected
        SignalPtr.deleted r ∧ L.owner r = some A :=
    ⟨L.base A, (World.mem_connected_connect _ _ _ _ _ _ _).2 (Or.inr ⟨rfl, rfl, rfl⟩),
      hL.owner_base A⟩
  have hA2 : w2 A = some ((a._connect e B h).disconnect_all B) := by
    rw [hrest A hAB, hA1, Option.map_some', World.after_calls_of hwired]
  have hnone : ∀ g k, k ∉ ((a._connect e B h).disconnect_all B).connected g B := by
    intro g k
    rw [connected_disconnect_all]
    simp
  have hcall : ∀ g x c, c ∈ (((a._connect e B h).disconnect_all B).signal_emit g x).2 →
      c.resiver ≠ B := by
    intro g x c hc hcB
    have hm := ((mem_signal_emit _ g x c).1 hc).2
    rw [hcB] at hm
    exact hnone g c.slot hm
  refine ⟨W1, w2, _, _, ?_, hd, hgone, hA2, rfl, ?_, hnone, hcall, ?_⟩
  · rw [World.connect_of_live L hA hB, hW1]
  · intro g
    rw [subscript_disconnect_all]
    exact Finmap.not_mem_erase_self
  · intro g x c hc ht
    have hne := hcall g x c hc
    have hm := ((mem_signal_emit _ g x c).1 hc).2
    cases hs : c.slot with
    | slot n =>
      simp only [World.target, hs, Option.some.injEq] at ht
      exact absurd ht hne
    | disconnect_all =>
      rw [World.target_disconnect_all hs] at ht
      have hb := hL.base_of_owner ht
      rw [hs, connected_disconnect_all, if_neg hne, World.mem_connected_connect] at hm
      refine ⟨rfl, hb.symm, ?_, ?_⟩
      · rw [hb]
        exact hne
      · rcases hm with hm | ⟨_, hr, _⟩
        · rw [hb]
          exact hm
        · exact absurd hr hne

theorem C3_destroyed_subscriber_is_disconnected_witness :
    Layout.flat.Lawful ∧
    World.fresh {1, 2} 2 = some SignalHandler.new ∧
    World.fresh {1, 2} 1 = some SignalHandler.new ∧ (2 : Nat) ≠ 1 ∧
    (∀ r, SlotPtr.disconnect_all ∈ SignalHandler.new.connected SignalPtr.deleted r →
      ∃ o, Layout.flat.owner r = some o ∧ o ≠ 1 ∧ (World.fresh {1, 2} o).isSome) ∧
    (∀ r n, SlotPtr.slot n ∈ SignalHandler.new.connected SignalPtr.deleted r →
      (World.fresh {1, 2} r).isSome) ∧
    ∃ w1 w2 calls a2,
      World.connect Layout.flat (World.fresh {1, 2}) 2 (SignalPtr.signal 0) 1 (SlotPtr.slot 0)
        = some w1 ∧
      World.destroy Layout.flat w1 1 = some (w2, calls) ∧ w2 1 = none ∧ w2 2 = some a2 ∧
      a2 = (SignalHandler.new._connect (SignalPtr.signal 0) 1 (SlotPtr.slot 0)).disconnect_all 1 ∧
      (∀ g, 1 ∉ subscript a2.m_connected_slots g) ∧
      (∀ g k, k ∉ a2.connected g 1) ∧
      (∀ g x c, c ∈ (a2.signal_emit g x).2 → c.resiver ≠ 1) ∧
      ∀ g x c, c ∈ (a2.signal_emit g x).2 → World.target Layout.flat c = some 1 →
        c.slot = SlotPtr.disconnect_all ∧ c.resiver = Layout.flat.base 1 ∧
          Layout.flat.base 1 ≠ 1 ∧
          SlotPtr.disconnect_all ∈ SignalHandler.new.connected g (Layout.flat.base 1) :=
  ⟨Layout.flat_lawful, by simp [World.fresh], by simp [World.fresh], by decide,
    by simp [connected_new], by simp [connected_new],
    C3_destroyed_subscriber_is_disconnected Layout.flat Layout.flat_lawful (World.fresh {1, 2})
      2 1 SignalHandler.new SignalHandler.new (by simp [World.fresh]) (by simp [World.fresh])
      (by decide) (by simp [connected_new]) (by simp [connected_new]) (SignalPtr.signal 0)
      (SlotPtr.slot 0)⟩

/-- C4: the code at the failing input `connect(1, signal 0, 2, slot 0)` followed by the
destruction of the emitter `1`. Object `1` is gone, the live object `2` still stores
`disconnect_all` keyed by `1` under its teardown event, and the later destruction of `2`
calls `disconnect_all` on the destroyed object `1`: it is undefined. -/
theorem C4_destroyed_emitter_stays_in_subscriber_table :
    ((World.connect Layout.flat (World.fresh {1, 2}) 1 (SignalPtr.signal 0) 2 (SlotPtr.slot 0)).bind
        (fun w => World.destroy Layout.flat w 1)).map
      (fun r => ((r.1 1).isSome,
        (r.1 2).map (fun b => decide (SlotPtr.disconnect_all ∈ b.connected SignalPtr.deleted 1))))
      = some (false, some true) ∧
    (((World.connect Layout.flat (World.fresh {1, 2}) 1 (SignalPtr.signal 0) 2 (SlotPtr.slot 0)).bind
        (fun w => World.destroy Layout.flat w 1)).bind (fun r => World.destroy Layout.flat r.1 2)).isSome = false := by
  decide

/-- C5, as stated, fails: after `connect(1, signal 0, 2, slot 0)` and the direct call
`2.disconnect_all(1)`, subscriber `2` still has `slot 0` registered on `signal 0` of
emitter `1`; after the destruction of `2` the object is gone, yet a raise of `signal 0`
on `1` calls `slot 0` on `2` once, and on the heap that raise is undefined. It also
fails without a direct call: when subscriber `2` was connected to itself, after
`connect(1, signal 0, 2, slot 0)` the destructor of `2` runs `disconnect_all(2)` on `2`
while it iterates the entry of `2`, and is undefined. -/
theorem C5_direct_disconnect_all_counterexample :
    ((World.connect Layout.flat (World.fresh {1, 2}) 1 (SignalPtr.signal 0) 2
          (SlotPtr.slot 0)).bind
        (fun w => World.disconnect_all w 2 1)).map
      (fun w => (w 1).map (fun a => decide (SlotPtr.slot 0 ∈ a.connected (SignalPtr.signal 0) 2)))
      = some (some true) ∧
    (((World.connect Layout.flat (World.fresh {1, 2}) 1 (SignalPtr.signal 0) 2
          (SlotPtr.slot 0)).bind
        (fun w => World.disconnect_all w 2 1)).bind (fun w => World.destroy Layout.flat w 2)).map
      (fun r => ((r.1 2).isSome,
        (r.1 1).map (fun a => (a.signal_emit (SignalPtr.signal 0) 7).2.count
          ⟨2, SlotPtr.slot 0, 7⟩),
        (World.signal_emit Layout.flat r.1 1 (SignalPtr.signal 0) 7).isSome))
      = some (false, some 1, false) ∧
    ((World.connect Layout.flat (World.fresh {1, 2}) 2 (SignalPtr.signal 0) 2
          (SlotPtr.slot 0)).bind
        (fun w => World.connect Layout.flat w 1 (SignalPtr.signal 0) 2 (SlotPtr.slot 0))).map
      (fun w => ((w 1).map (fun a => decide (SlotPtr.slot 0 ∈ a.connected (SignalPtr.signal 0) 2)),
        (World.destroy Layout.flat w 2).isSome))
      = some (some true, false) := by
  decide

/-- C5 (amended): in every heap built from fresh objects by `connect` and by `disconnect`
of registrations other than the teardown wiring, when subscriber `B` has a handler `h`
registered on an event `e` of emitter `A`, the pair `(e, h)` not being the teardown
wiring itself, and every `disconnect_all` stored under `B`'s teardown event is stored
under the address of the base subobject of a live object other than `B`: the destruction
of `B` is defined, the table of `A` afterwards is the one before with the key `B`
erased under every event, so `A` holds no slot under the address of `B` under any event,
a raise of `e` on `A` calls `h` on `B` zero times and no raise on `A` makes a call
through the address of `B`. -/
theorem C5_built_heap_no_stale_dispatch (L : Layout) (hL : L.Lawful) (objs : Finset Nat)
    (w : World) (hw : World.Built L objs w) (A B : Nat) (a : SignalHandler)
    (hA : w A = some a) (e : SignalPtr) (h : SlotPtr) (hreg : h ∈ a.connected e B)
    (hne : ¬(e = SignalPtr.deleted ∧ h = SlotPtr.disconnect_all))
    (hsafe : ∀ b, w B = some b →
      ∀ r, SlotPtr.disconnect_all ∈ b.connected SignalPtr.deleted r →
        ∃ o, L.owner r = some o ∧ o ≠ B ∧ (w o).isSome) :
    ∃ w1 calls a1, World.destroy L w B = some (w1, calls) ∧ w1 B = none ∧ w1 A = some a1 ∧
      a1 = a.disconnect_all B ∧
      (∀ x, calls_to (a1.signal_emit e x).2 B h = 0) ∧
      (∀ g k, k ∉ a1.connected g B) ∧
      ∀ g x c, c ∈ (a1.signal_emit g x).2 → c.resiver ≠ B := by
  obtain ⟨_, hwire⟩ := hw.wired
  obtain ⟨b, hB, hwired⟩ := hwire A a e B h hA hreg hne
  have hAB : A ≠ B := by
    obtain ⟨o, ho, hoB, _⟩ := hsafe b hB (L.base A) hwired
    rw [hL.owner_base A, Option.some.injEq] at ho
    rw [ho]
    exact hoB
  have hlive : ∀ r n, SlotPtr.slot n ∈ b.connected SignalPtr.deleted r → (w r).isSome := by
    intro r n hk
    obtain ⟨b1, hb1, _⟩ := hwire B b SignalPtr.deleted r (SlotPtr.slot n) hB hk
      (fun hh => by cases hh.2)
    rw [hb1]
    simp only [Option.isSome_some]
  obtain ⟨w1, hd, hgone, hrest⟩ := World.destroy_of_live L hB (hsafe b hB) hlive
  have hA1 : w1 A = some (a.disconnect_all B) := by
    rw [hrest A hAB, hA, Option.map_some',
      World.after_calls_of ⟨L.base A, hwired, hL.owner_base A⟩]
  have hnone : ∀ g k, k ∉ (a.disconnect_all B).connected g B := by
    intro g k
    rw [connected_disconnect_all]
    simp
  refine ⟨w1, _, _, hd, hgone, hA1, rfl, ?_, hnone, ?_⟩
  · intro x
    rw [calls_to_signal_emit, if_neg (hnone e h)]
  · intro g x c hc hcB
    have hm := ((mem_signal_emit _ g x c).1 hc).2
    rw [hcB] at hm
    exact hnone g c.slot hm

theorem C5_built_heap_no_stale_dispatch_witness :
    Layout.flat.Lawful ∧
    World.Built Layout.flat {1, 2} (fun o => (World.fresh {1, 2} o).map
      (World.connect_at Layout.flat 2 (SignalPtr.signal 0) 1 (SlotPtr.slot 0) o)) ∧
    SlotPtr.slot 0 ∈ (World.connect_at Layout.flat 2 (SignalPtr.signal 0) 1 (SlotPtr.slot 0) 2
      SignalHandler.new).connected (SignalPtr.signal 0) 1 ∧
    (∀ r, SlotPtr.disconnect_all ∈ (World.connect_at Layout.flat 2 (SignalPtr.signal 0) 1
        (SlotPtr.slot 0) 1 SignalHandler.new).connected SignalPtr.deleted r →
      ∃ o, Layout.flat.owner r = some o ∧ o ≠ 1 ∧ ((World.fresh {1, 2} o).map
        (World.connect_at Layout.flat 2 (SignalPtr.signal 0) 1 (SlotPtr.slot 0) o)).isSome) ∧
    ∃ w1 calls a1,
      World.destroy Layout.flat (fun o => (World.fresh {1, 2} o).map
        (World.connect_at Layout.flat 2 (SignalPtr.signal 0) 1 (SlotPtr.slot 0) o)) 1
        = some (w1, calls) ∧
      w1 1 = none ∧ w1 2 = some a1 ∧
      a1 = (World.connect_at Layout.flat 2 (SignalPtr.signal 0) 1 (SlotPtr.slot 0) 2
        SignalHandler.new).disconnect_all 1 ∧
      (∀ x, calls_to (a1.signal_emit (SignalPtr.signal 0) x).2 1 (SlotPtr.slot 0) = 0) ∧
      (∀ g k, k ∉ a1.connected g 1) ∧
      ∀ g x c, c ∈ (a1.signal_emit g x).2 → c.resiver ≠ 1 :=
  have hb : World.Built Layout.flat {1, 2} (fun o => (World.fresh {1, 2} o).map
      (World.connect_at Layout.flat 2 (SignalPtr.signal 0) 1 (SlotPtr.slot 0) o)) :=
    World.Built.connect 2 (SignalPtr.signal 0) 1 (SlotPtr.slot 0) World.Built.fresh
      (World.connect_of_live Layout.flat (a := SignalHandler.new) (b := SignalHandler.new)
        (by simp [World.fresh]) (by simp [World.fresh]) (SignalPtr.signal 0) (SlotPtr.slot 0))
  have hs : ∀ r, SlotPtr.disconnect_all ∈ (World.connect_at Layout.flat 2 (SignalPtr.signal 0) 1
        (SlotPtr.slot 0) 1 SignalHandler.new).connected SignalPtr.deleted r →
      ∃ o, Layout.flat.owner r = some o ∧ o ≠ 1 ∧ ((World.fresh {1, 2} o).map
        (World.connect_at Layout.flat 2 (SignalPtr.signal 0) 1 (SlotPtr.slot 0) o)).isSome := by
    intro r hr
    rw [World.connected_connect_at] at hr
    rcases hr with hm | ⟨hh, _⟩ | ⟨_, _, hr, _⟩
    · simp [connected_new] at hm
    · exact absurd hh (by decide)
    · exact ⟨2, by rw [hr]; rfl, by decide, by simp [World.fresh]⟩
  ⟨Layout.flat_lawful, hb, by decide, hs,
    C5_built_heap_no_stale_dispatch Layout.flat Layout.flat_lawful {1, 2} _ hb 2 1
      (World.connect_at Layout.flat 2 (SignalPtr.signal 0) 1 (SlotPtr.slot 0) 2
        SignalHandler.new)
      (by simp [World.fresh]) (SignalPtr.signal 0) (SlotPtr.slot 0) (by decide) (by decide)
      (by
        intro b hb1
        have : b = World.connect_at Layout.flat 2 (SignalPtr.signal 0) 1 (SlotPtr.slot 0) 1
            SignalHandler.new := by
          simpa [World.fresh] using hb1.symm
        subst this
        exact hs)⟩

/-- C6: `connect` is idempotent. In every heap where `A` and `B` are live, a second
`connect(A, e, B, h)` leaves the whole heap, so the tables of `A` and of `B`, as the
first one left it, and a raise of `e` on `A` then calls `h` on `B` once, not twice. -/
theorem C6_connect_idempotent (L : Layout) (w : World) (A B : Nat) (a b : SignalHandler)
    (hA : w A = some a) (hB : w B = some b) (e : SignalPtr) (h : SlotPtr) (x : Nat) :
    ∃ w1 a1, World.connect L w A e B h = some w1 ∧ World.connect L w1 A e B h = some w1 ∧
      w1 A = some a1 ∧
      calls_to (a1.signal_emit e x).2 B h = {⟨B, h, x⟩} ∧
      (a1.signal_emit e x).2.count ⟨B, h, x⟩ = 1 := by
  have hreg : h ∈ (World.connect_at L A e B h A a).connected e B := by
    rw [World.connected_connect_at]
    exact Or.inr (Or.inl ⟨rfl, rfl, rfl, rfl⟩)
  have hA1 : (fun o => (w o).map (World.connect_at L A e B h o)) A
      = some (World.connect_at L A e B h A a) := by simp [hA]
  have hB1 : (fun o => (w o).map (World.connect_at L A e B h o)) B
      = some (World.connect_at L A e B h B b) := by simp [hB]
  refine ⟨_, World.connect_at L A e B h A a, World.connect_of_live L hA hB e h, ?_, hA1, ?_, ?_⟩
  · rw [World.connect_of_live L hA1 hB1]
    congr 1
    funext o
    cases hw : w o with
    | none => simp
    | some s => simp [World.connect_at_idem]
  · rw [calls_to_signal_emit, if_pos hreg]
  · rw [count_signal_emit]
    simp [hreg]

theorem C6_connect_idempotent_witness :
    World.fresh {1, 2} 1 = some SignalHandler.new ∧
    World.fresh {1, 2} 2 = some SignalHandler.new ∧
    ∃ w1 a1, World.connect Layout.flat (World.fresh {1, 2}) 1 (SignalPtr.signal 0) 2 (SlotPtr.slot 0)
        = some w1 ∧
      World.connect Layout.flat w1 1 (SignalPtr.signal 0) 2 (SlotPtr.slot 0) = some w1 ∧
      w1 1 = some a1 ∧
      calls_to (a1.signal_emit (SignalPtr.signal 0) 7).2 2 (SlotPtr.slot 0)
        = {⟨2, SlotPtr.slot 0, 7⟩} ∧
      (a1.signal_emit (SignalPtr.signal 0) 7).2.count ⟨2, SlotPtr.slot 0, 7⟩ = 1 :=
  ⟨by simp [World.fresh], by simp [World.fresh],
    C6_connect_idempotent Layout.flat (World.fresh {1, 2}) 1 2 SignalHandler.new SignalHandler.new
      (by simp [World.fresh]) (by simp [World.fresh]) (SignalPtr.signal 0) (SlotPtr.slot 0) 7⟩

/-- C7: a raise of `e` with `x` calls exactly the `(subscriber, handler)` pairs registered
for `e` at that moment: each such pair once with `x`, and no pair that is registered only
under another event or not at all, and no call with another argument. -/
theorem C7_raise_invokes_exactly_registered (s : SignalHandler) (e : SignalPtr) (x : Nat)
    (r : ResiverPtr) (h : SlotPtr) (y : Nat) :
    (s.signal_emit e x).2.count ⟨r, h, y⟩ = if y = x ∧ h ∈ s.connected e r then 1 else 0 := by
  rw [count_signal_emit]

/-- C8: fan-out does not depend on the order of connection. For live `A`, `B1`, `B2`
(distinct subscribers included), the two orders of `connect(A, e, B1, h1)` and `connect(A, e, B2, h2)` give
the same heap, so the same table for `A`, and one raise of `e` on `A` calls `h1` on `B1`
once and `h2` on `B2` once. -/
theorem C8_fanout_order_independent (L : Layout) (w : World) (A B1 B2 : Nat) (a b1 b2 : SignalHandler)
    (hA : w A = some a) (hB1 : w B1 = some b1) (hB2 : w B2 = some b2)
    (e : SignalPtr) (h1 h2 : SlotPtr) (x : Nat) :
    ∃ w12 a12,
      (World.connect L w A e B1 h1).bind (fun w1 => World.connect L w1 A e B2 h2) = some w12 ∧
      (World.connect L w A e B2 h2).bind (fun w2 => World.connect L w2 A e B1 h1) = some w12 ∧
      w12 A = some a12 ∧
      calls_to (a12.signal_emit e x).2 B1 h1 = {⟨B1, h1, x⟩} ∧
      calls_to (a12.signal_emit e x).2 B2 h2 = {⟨B2, h2, x⟩} := by
  have step : ∀ (C D : Nat) (c d : SignalHandler) (k l : SlotPtr), w C = some c → w D = some d →
      (World.connect L w A e C k).bind (fun w1 => World.connect L w1 A e D l)
        = some (fun o => (w o).map
            (fun s => World.connect_at L A e D l o (World.connect_at L A e C k o s))) := by
    intro C D c d k l hC hD
    rw [World.connect_of_live L hA hC, Option.some_bind]
    have hA1 : (fun o => (w o).map (World.connect_at L A e C k o)) A
        = some (World.connect_at L A e C k A a) := by simp [hA]
    have hD1 : (fun o => (w o).map (World.connect_at L A e C k o)) D
        = some (World.connect_at L A e C k D d) := by simp [hD]
    rw [World.connect_of_live L hA1 hD1]
    congr 1
    funext o
    cases hw : w o <;> simp
  have hreg1 : h1 ∈ (World.connect_at L A e B2 h2 A
      (World.connect_at L A e B1 h1 A a)).connected e B1 := by
    rw [World.connected_connect_at, World.connected_connect_at]
    exact Or.inl (Or.inr (Or.inl ⟨rfl, rfl, rfl, rfl⟩))
  have hreg2 : h2 ∈ (World.connect_at L A e B2 h2 A
      (World.connect_at L A e B1 h1 A a)).connected e B2 := by
    rw [World.connected_connect_at]
    exact Or.inr (Or.inl ⟨rfl, rfl, rfl, rfl⟩)
  refine ⟨_, World.connect_at L A e B2 h2 A (World.connect_at L A e B1 h1 A a),
    step B1 B2 b1 b2 h1 h2 hB1 hB2, ?_, by simp [hA], ?_, ?_⟩
  · rw [step B2 B1 b2 b1 h2 h1 hB2 hB1]
    congr 1
    funext o
    cases hw : w o with
    | none => simp
    | some s => simp [World.connect_at_comm L A B1 A B2 o e e h1 h2 s]
  · rw [calls_to_signal_emit, if_pos hreg1]
  · rw [calls_to_signal_emit, if_pos hreg2]

theorem C8_fanout_order_independent_witness :
    World.fresh {1, 2, 3} 3 = some SignalHandler.new ∧
    World.fresh {1, 2, 3} 1 = some SignalHandler.new ∧
    World.fresh {1, 2, 3} 2 = some SignalHandler.new ∧
    ∃ w12 a12,
      (World.connect Layout.flat (World.fresh {1, 2, 3}) 3 (SignalPtr.signal 0) 1 (SlotPtr.slot 1)).bind
        (fun w1 => World.connect Layout.flat w1 3 (SignalPtr.signal 0) 2 (SlotPtr.slot 2)) = some w12 ∧
      (World.connect Layout.flat (World.fresh {1, 2, 3}) 3 (SignalPtr.signal 0) 2 (SlotPtr.slot 2)).bind
        (fun w2 => World.connect Layout.flat w2 3 (SignalPtr.signal 0) 1 (SlotPtr.slot 1)) = some w12 ∧
      w12 3 = some a12 ∧
      calls_to (a12.signal_emit (SignalPtr.signal 0) 7).2 1 (SlotPtr.slot 1)
        = {⟨1, SlotPtr.slot 1, 7⟩} ∧
      calls_to (a12.signal_emit (SignalPtr.signal 0) 7).2 2 (SlotPtr.slot 2)
        = {⟨2, SlotPtr.slot 2, 7⟩} :=
  ⟨by simp [World.fresh], by simp [World.fresh], by simp [World.fresh],
    C8_fanout_order_independent Layout.flat (World.fresh {1, 2, 3}) 3 1 2 SignalHandler.new
      SignalHandler.new SignalHandler.new (by simp [World.fresh]) (by simp [World.fresh])
      (by simp [World.fresh]) (SignalPtr.signal 0) (SlotPtr.slot 1)
      (SlotPtr.slot 2) 7⟩

/-- C9, as stated, fails. Objects `3` (for `X`), `2` (for `Y`) and `1` (for `B`), with
`slot 0` of `B` connected to `signal 0` of `X` and to `signal 0` of `Y`. When `X` also
has `Y`'s public slot `disconnect_all` connected to its `signal 0`, the raise on `X`
with the address of `B` as argument runs `Y.disconnect_all(B)`: it calls the handler of
`B` once and the following raise on `Y` calls it zero times, once in total. And when
`X` still stores a slot of a subscriber `4` that was destroyed after a direct call of
`disconnect_all` removed its teardown wiring, the raise on `X` calls a destroyed object
and is undefined. -/
theorem C9_raise_of_disconnect_all_counterexample :
    (((((World.connect Layout.flat (World.fresh {1, 2, 3}) 3 (SignalPtr.signal 0) 2
          SlotPtr.disconnect_all).bind
        (fun w => World.connect Layout.flat w 3 (SignalPtr.signal 0) 1 (SlotPtr.slot 0))).bind
        (fun w => World.connect Layout.flat w 2 (SignalPtr.signal 0) 1 (SlotPtr.slot 0))).bind
        (fun w => World.signal_emit Layout.flat w 3 (SignalPtr.signal 0) 1)).bind
        (fun r1 => (World.signal_emit Layout.flat r1.1 2 (SignalPtr.signal 0) 1).map
          (fun r2 => (r1.2.count ⟨1, SlotPtr.slot 0, 1⟩, r2.2.count ⟨1, SlotPtr.slot 0, 1⟩))))
      = some (1, 0) ∧
    ((((((World.connect Layout.flat (World.fresh {1, 2, 3, 4}) 3 (SignalPtr.signal 0) 4
          (SlotPtr.slot 1)).bind
        (fun w => World.disconnect_all w 4 3)).bind
        (fun w => World.destroy Layout.flat w 4)).bind
        (fun r => World.connect Layout.flat r.1 3 (SignalPtr.signal 0) 1 (SlotPtr.slot 0))).bind
        (fun w => World.connect Layout.flat w 2 (SignalPtr.signal 0) 1 (SlotPtr.slot 0))).map
        (fun w => ((w 1).isSome, (w 2).isSome, (w 3).isSome,
          (World.signal_emit Layout.flat w 3 (SignalPtr.signal 0) 7).isSome)))
      = some (true, true, true, false) := by
  decide

/-- C9 (amended): fan-in is isolated per emitter. For live, pairwise distinct `X`, `Y`,
`B`: `connect(Y, e2, B, h)` leaves `X`'s table as it was, so a raise on `X` makes the
calls it made before, and none of `h` on `B` when `h` is registered only on `Y`. When
`h` of `B` is connected to `e1` of `X` and to `e2` of `Y`, the dispatch loop of `X` for
`e1` calls `h` on `B` once and that of `Y` for `e2` calls it once. When moreover `h` and
the slots stored before under `e1` in `X` and under `e2` in `Y` are slots of user
classes on live objects, the raise of `e1` on `X` followed by the raise of `e2` on `Y`
is defined on the heap, and the two raises call `h` on `B` once each, twice in total. -/
theorem C9_fanin_isolated_per_emitter (L : Layout) (w : World) (X Y B : Nat)
    (x0 y0 b0 : SignalHandler)
    (hX : w X = some x0) (hY : w Y = some y0) (hB : w B = some b0)
    (hXY : X ≠ Y) (hXB : X ≠ B) (hYB : Y ≠ B)
    (e1 e2 : SignalPtr) (h : SlotPtr) (p q : Nat) :
    (∃ w1, World.connect L w Y e2 B h = some w1 ∧ w1 X = w X ∧
      ∀ g, h ∉ x0.connected g B → calls_to (x0.signal_emit g p).2 B h = 0) ∧
    ∃ w2 x2 y2,
      (World.connect L w X e1 B h).bind (fun w1 => World.connect L w1 Y e2 B h) = some w2 ∧
      w2 X = some x2 ∧ w2 Y = some y2 ∧
      calls_to (x2.signal_emit e1 p).2 B h = {⟨B, h, p⟩} ∧
      calls_to (y2.signal_emit e2 q).2 B h = {⟨B, h, q⟩} ∧
      (h ≠ SlotPtr.disconnect_all →
        (∀ r k, k ∈ x0.connected e1 r → k ≠ SlotPtr.disconnect_all ∧ (w r).isSome) →
        (∀ r k, k ∈ y0.connected e2 r → k ≠ SlotPtr.disconnect_all ∧ (w r).isSome) →
        ∃ w3 c1 w4 c2, World.signal_emit L w2 X e1 p = some (w3, c1) ∧
          World.signal_emit L w3 Y e2 q = some (w4, c2) ∧
          calls_to c1 B h = {⟨B, h, p⟩} ∧ calls_to c2 B h = {⟨B, h, q⟩} ∧
          (calls_to c1 B h + calls_to c2 B h).card = 2) := by
  constructor
  · refine ⟨_, World.connect_of_live L hY hB e2 h, ?_, ?_⟩
    · simp [hX, World.connect_at_other L hXY hXB]
    · intro g hn
      rw [calls_to_signal_emit, if_neg hn]
  · have hX1 : (fun o => (w o).map (World.connect_at L X e1 B h o)) X
        = some (x0._connect e1 B h) := by
      simp [hX, World.connect_at_sender L hXB]
    have hY1 : (fun o => (w o).map (World.connect_at L X e1 B h o)) Y = some y0 := by
      simp [hY, World.connect_at_other L hXY.symm hYB]
    have hB1 : (fun o => (w o).map (World.connect_at L X e1 B h o)) B
        = some (b0._connect SignalPtr.deleted (L.base X) SlotPtr.disconnect_all) := by
      simp [hB, World.connect_at_resiver L hXB]
    have hregX : h ∈ (x0._connect e1 B h).connected e1 B := by
      rw [World.mem_connected_connect]
      exact Or.inr ⟨rfl, rfl, rfl⟩
    have hregY : h ∈ (y0._connect e2 B h).connected e2 B := by
      rw [World.mem_connected_connect]
      exact Or.inr ⟨rfl, rfl, rfl⟩
    have hcX : calls_to ((x0._connect e1 B h).signal_emit e1 p).2 B h = {⟨B, h, p⟩} := by
      rw [calls_to_signal_emit, if_pos hregX]
    have hcY : calls_to ((y0._connect e2 B h).signal_emit e2 q).2 B h = {⟨B, h, q⟩} := by
      rw [calls_to_signal_emit, if_pos hregY]
    obtain ⟨W2, hW2⟩ : ∃ W2 : World, W2 = fun o =>
        ((fun o => (w o).map (World.connect_at L X e1 B h o)) o).map
          (World.connect_at L Y e2 B h o) := ⟨_, rfl⟩
    have hX2 : W2 X = some (x0._connect e1 B h) := by
      rw [hW2]
      simp [hX, World.connect_at_sender L hXB, World.connect_at_other L hXY hXB]
    have hY2 : W2 Y = some (y0._connect e2 B h) := by
      rw [hW2]
      simp [hY, World.connect_at_sender L hYB, World.connect_at_other L hXY.symm hYB]
    have hlive2 : ∀ o, (W2 o).isSome = (w o).isSome := by
      intro o
      rw [hW2]
      cases hwo : w o <;> simp [hwo]
    refine ⟨W2, x0._connect e1 B h, y0._connect e2 B h, ?_, hX2, hY2, hcX, hcY, ?_⟩
    · rw [World.connect_of_live L hX hB, Option.some_bind, World.connect_of_live L hY1 hB1, hW2]
    · intro hh hx hy
      have hBl : (w B).isSome := by rw [hB]; simp only [Option.isSome_some]
      have hx2 : ∀ r k, k ∈ (x0._connect e1 B h).connected e1 r →
          k ≠ SlotPtr.disconnect_all ∧ (w r).isSome := by
        intro r k hk
        rw [World.mem_connected_connect] at hk
        rcases hk with hm | ⟨_, rfl, rfl⟩
        · exact hx r k hm
        · exact ⟨hh, hBl⟩
      have hy2 : ∀ r k, k ∈ (y0._connect e2 B h).connected e2 r →
          k ≠ SlotPtr.disconnect_all ∧ (w r).isSome := by
        intro r k hk
        rw [World.mem_connected_connect] at hk
        rcases hk with hm | ⟨_, rfl, rfl⟩
        · exact hy r k hm
        · exact ⟨hh, hBl⟩
      have hr1 := World.heap_signal_emit_of_user L hX2 e1 p
        (fun r k hk => ⟨(hx2 r k hk).1, by rw [hlive2]; exact (hx2 r k hk).2⟩)
      obtain ⟨W3, hW3⟩ : ∃ W3 : World, W3 = Function.update W2 X
          (some ((x0._connect e1 B h).signal_emit e1 p).1) := ⟨_, rfl⟩
      rw [← hW3] at hr1
      have hY3 : W3 Y = some (y0._connect e2 B h) := by
        rw [hW3, Function.update_noteq hXY.symm]
        exact hY2
      have hlive3 : ∀ o, (w o).isSome → (W3 o).isSome := by
        intro o ho
        rw [hW3]
        by_cases hoX : o = X
        · rw [hoX, Function.update_same]
          simp only [Option.isSome_some]
        · rw [Function.update_noteq hoX, hlive2]
          exact ho
      have hr2 := World.heap_signal_emit_of_user L hY3 e2 q
        (fun r k hk => ⟨(hy2 r k hk).1, hlive3 r (hy2 r k hk).2⟩)
      refine ⟨W3, _, _, _, hr1, hr2, hcX, hcY, ?_⟩
      rw [hcX, hcY]
      rfl

theorem C9_fanin_isolated_per_emitter_witness :
    World.fresh {1, 2, 3} 3 = some SignalHandler.new ∧
    World.fresh {1, 2, 3} 2 = some SignalHandler.new ∧
    World.fresh {1, 2, 3} 1 = some SignalHandler.new ∧
    (3 : Nat) ≠ 2 ∧ (3 : Nat) ≠ 1 ∧ (2 : Nat) ≠ 1 ∧
    SlotPtr.slot 0 ≠ SlotPtr.disconnect_all ∧
    (∀ r k, k ∈ SignalHandler.new.connected (SignalPtr.signal 0) r →
      k ≠ SlotPtr.disconnect_all ∧ (World.fresh {1, 2, 3} r).isSome) ∧
    ((∃ w1, World.connect Layout.flat (World.fresh {1, 2, 3}) 2 (SignalPtr.signal 0) 1
        (SlotPtr.slot 0) = some w1 ∧ w1 3 = World.fresh {1, 2, 3} 3 ∧
      ∀ g, SlotPtr.slot 0 ∉ SignalHandler.new.connected g 1 →
        calls_to (SignalHandler.new.signal_emit g 7).2 1 (SlotPtr.slot 0) = 0) ∧
    ∃ w2 x2 y2,
      (World.connect Layout.flat (World.fresh {1, 2, 3}) 3 (SignalPtr.signal 0) 1
          (SlotPtr.slot 0)).bind
        (fun w1 => World.connect Layout.flat w1 2 (SignalPtr.signal 0) 1 (SlotPtr.slot 0))
        = some w2 ∧
      w2 3 = some x2 ∧ w2 2 = some y2 ∧
      calls_to (x2.signal_emit (SignalPtr.signal 0) 7).2 1 (SlotPtr.slot 0)
        = {⟨1, SlotPtr.slot 0, 7⟩} ∧
      calls_to (y2.signal_emit (SignalPtr.signal 0) 7).2 1 (SlotPtr.slot 0)
        = {⟨1, SlotPtr.slot 0, 7⟩} ∧
      (SlotPtr.slot 0 ≠ SlotPtr.disconnect_all →
        (∀ r k, k ∈ SignalHandler.new.connected (SignalPtr.signal 0) r →
          k ≠ SlotPtr.disconnect_all ∧ (World.fresh {1, 2, 3} r).isSome) →
        (∀ r k, k ∈ SignalHandler.new.connected (SignalPtr.signal 0) r →
          k ≠ SlotPtr.disconnect_all ∧ (World.fresh {1, 2, 3} r).isSome) →
        ∃ w3 c1 w4 c2,
          World.signal_emit Layout.flat w2 3 (SignalPtr.signal 0) 7 = some (w3, c1) ∧
          World.signal_emit Layout.flat w3 2 (SignalPtr.signal 0) 7 = some (w4, c2) ∧
          calls_to c1 1 (SlotPtr.slot 0) = {⟨1, SlotPtr.slot 0, 7⟩} ∧
          calls_to c2 1 (SlotPtr.slot 0) = {⟨1, SlotPtr.slot 0, 7⟩} ∧
          (calls_to c1 1 (SlotPtr.slot 0) + calls_to c2 1 (SlotPtr.slot 0)).card = 2)) :=
  ⟨by simp [World.fresh], by simp [World.fresh], by simp [World.fresh], by decide, by decide,
    by decide, by decide, by simp [connected_new],
    C9_fanin_isolated_per_emitter Layout.flat (World.fresh {1, 2, 3}) 3 2 1 SignalHandler.new
      SignalHandler.new SignalHandler.new (by simp [World.fresh]) (by simp [World.fresh])
      (by simp [World.fresh]) (by decide) (by decide) (by decide) (SignalPtr.signal 0)
      (SignalPtr.signal 0) (SlotPtr.slot 0) 7 7⟩

/-- C10: `disconnect` removes exactly one registration. For a live `A`,
`disconnect(A, e, B, h)` succeeds, changes no other object, and the registered
`(event, subscriber, handler)` triples of `A` afterwards are those before minus
`(e, B, h)`: every other handler of `B` under `e`, every other subscriber and every other
event keep their registrations, and when `(e, B, h)` was not registered the set of
registrations is unchanged. -/
theorem C10_disconnect_removes_exactly_one (w : World) (A B : Nat) (a : SignalHandler)
    (hA : w A = some a) (e : SignalPtr) (h : SlotPtr) :
    ∃ w1 a1, World.disconnect w A e B h = some w1 ∧ w1 A = some a1 ∧
      (∀ o, o ≠ A → w1 o = w o) ∧
      a1.registrations = a.registrations.erase (e, B, h) ∧
      (∀ e1 r h1, (e1, r, h1) ≠ (e, B, h) →
        ((e1, r, h1) ∈ a1.registrations ↔ (e1, r, h1) ∈ a.registrations)) ∧
      ((e, B, h) ∉ a.registrations → a1.registrations = a.registrations) := by
  have hreg : (a.disconnect e B h).registrations = a.registrations.erase (e, B, h) := by
    ext ⟨e1, r, h1⟩
    rw [Finset.mem_erase, mem_registrations, mem_registrations, connected_disconnect]
    by_cases hc : e1 = e ∧ r = B
    · obtain ⟨rfl, rfl⟩ := hc
      simp [Finset.mem_erase]
    · simp only [hc, if_false, ne_eq, Prod.mk.injEq]
      constructor
      · intro hm
        exact ⟨fun hh => hc ⟨hh.1, hh.2.1⟩, hm⟩
      · exact fun hm => hm.2
  refine ⟨Function.update w A (some (a.disconnect e B h)), a.disconnect e B h,
    by simp [World.disconnect, hA], Function.update_same _ _ _,
    fun o ho => Function.update_noteq ho _ _, hreg, ?_, ?_⟩
  · intro e1 r h1 hne
    rw [hreg, Finset.mem_erase]
    exact ⟨fun hm => hm.2, fun hm => ⟨hne, hm⟩⟩
  · intro hn
    rw [hreg, Finset.erase_eq_of_not_mem hn]

theorem C10_disconnect_removes_exactly_one_witness :
    Function.update (World.fresh {1, 2}) 1
        (some (SignalHandler.new._connect (SignalPtr.signal 0) 2 (SlotPtr.slot 0))) 1
      = some (SignalHandler.new._connect (SignalPtr.signal 0) 2 (SlotPtr.slot 0)) ∧
    ∃ w1 a1,
      World.disconnect (Function.update (World.fresh {1, 2}) 1
        (some (SignalHandler.new._connect (SignalPtr.signal 0) 2 (SlotPtr.slot 0))))
        1 (SignalPtr.signal 0) 2 (SlotPtr.slot 0) = some w1 ∧ w1 1 = some a1 ∧
      (∀ o, o ≠ 1 → w1 o = Function.update (World.fresh {1, 2}) 1
        (some (SignalHandler.new._connect (SignalPtr.signal 0) 2 (SlotPtr.slot 0))) o) ∧
      a1.registrations
        = (SignalHandler.new._connect (SignalPtr.signal 0) 2 (SlotPtr.slot 0)).registrations.erase
            (SignalPtr.signal 0, 2, SlotPtr.slot 0) ∧
      (∀ e1 r h1, (e1, r, h1) ≠ (SignalPtr.signal 0, 2, SlotPtr.slot 0) →
        ((e1, r, h1) ∈ a1.registrations ↔ (e1, r, h1) ∈
          (SignalHandler.new._connect (SignalPtr.signal 0) 2 (SlotPtr.slot 0)).registrations)) ∧
      ((SignalPtr.signal 0, 2, SlotPtr.slot 0) ∉
          (SignalHandler.new._connect (SignalPtr.signal 0) 2 (SlotPtr.slot 0)).registrations →
        a1.registrations
          = (SignalHandler.new._connect (SignalPtr.signal 0) 2 (SlotPtr.slot 0)).registrations) :=
  ⟨Function.update_same _ _ _,
    C10_disconnect_removes_exactly_one _ 1 2
      (SignalHandler.new._connect (SignalPtr.signal 0) 2 (SlotPtr.slot 0))
      (Function.update_same _ _ _) (SignalPtr.signal 0) (SlotPtr.slot 0)⟩

/-- C11: for every table and every object reference `s`, `disconnect_all(s)` removes the
entry keyed by `s` under every event, so that afterwards no raise of any event on this
object calls any slot on `s`; what the table stores for every other subscriber, key and
slots, is unchanged under every event, and so are the calls made on them. -/
theorem C11_disconnect_all_removes_subscriber (t : SignalHandler) (s : SenderPtr) :
    (∀ g, s ∉ subscript (t.disconnect_all s).m_connected_slots g) ∧
    (∀ g k, k ∉ (t.disconnect_all s).connected g s) ∧
    (∀ g x c, c ∈ ((t.disconnect_all s).signal_emit g x).2 → c.resiver ≠ s) ∧
    (∀ g, g ∈ (t.disconnect_all s).m_connected_slots ↔ g ∈ t.m_connected_slots) ∧
    (∀ g r, r ≠ s → (t.disconnect_all s).stored g r = t.stored g r) ∧
    (∀ g r, r ≠ s → (t.disconnect_all s).connected g r = t.connected g r) ∧
    (∀ g r h x, r ≠ s →
      calls_to ((t.disconnect_all s).signal_emit g x).2 r h
        = calls_to (t.signal_emit g x).2 r h) := by
  have hnone : ∀ g k, k ∉ (t.disconnect_all s).connected g s := by
    intro g k
    rw [connected_disconnect_all]
    simp
  have hsame : ∀ g r, r ≠ s → (t.disconnect_all s).connected g r = t.connected g r := by
    intro g r hr
    rw [connected_disconnect_all, if_neg hr]
  refine ⟨?_, hnone, ?_, ?_, ?_, hsame, ?_⟩
  · intro g
    rw [subscript_disconnect_all]
    exact Finmap.not_mem_erase_self
  · intro g x c hc hcs
    have hm := ((mem_signal_emit _ g x c).1 hc).2
    rw [hcs] at hm
    exact hnone g c.slot hm
  · intro g
    exact mem_forEachValue _ _ g
  · intro g r hr
    exact stored_disconnect_all t s g r hr
  · intro g r h x hr
    rw [calls_to_signal_emit, calls_to_signal_emit, hsame g r hr]

/-- C12, as stated, fails in its last part, for distinct live objects `1` (for `A`) and
`2` (for `B`) and the event `signal 0`. When `B` was connected to itself before, after
`connect(A, signal 0, B, slot 0)` and `disconnect(A, signal 0, B, slot 0)` the wiring
is still stored in `B`, but the destructor of `B` runs `disconnect_all(B)` on `B` while
it iterates the entry of `B`, and is undefined. When `B` was subscribed to an emitter
`3` that is destroyed first, the destructor of `B` calls `disconnect_all` on the
destroyed `3`, and is undefined. -/
theorem C12_subscriber_teardown_counterexample :
    ((((World.connect Layout.flat (World.fresh {1, 2}) 2 (SignalPtr.signal 0) 2
          (SlotPtr.slot 0)).bind
        (fun w => World.connect Layout.flat w 1 (SignalPtr.signal 0) 2 (SlotPtr.slot 0))).bind
        (fun w => World.disconnect w 1 (SignalPtr.signal 0) 2 (SlotPtr.slot 0))).map
      (fun w => ((w 1).isSome,
        (w 2).map (fun b => decide (SlotPtr.disconnect_all ∈ b.connected SignalPtr.deleted 1)),
        (World.destroy Layout.flat w 2).isSome)))
      = some (true, some true, false) ∧
    (((((World.connect Layout.flat (World.fresh {1, 2, 3}) 3 (SignalPtr.signal 0) 2
          (SlotPtr.slot 0)).bind
        (fun w => World.destroy Layout.flat w 3)).bind
        (fun r => World.connect Layout.flat r.1 1 (SignalPtr.signal 0) 2 (SlotPtr.slot 0))).bind
        (fun w => World.disconnect w 1 (SignalPtr.signal 0) 2 (SlotPtr.slot 0))).map
      (fun w => ((w 1).isSome,
        (w 2).map (fun b => decide (SlotPtr.disconnect_all ∈ b.connected SignalPtr.deleted 1)),
        (World.destroy Layout.flat w 2).isSome)))
      = some (true, some true, false) := by
  decide

/-- C12 (amended): `disconnect` does not remove the teardown wiring that `connect`
installed. For distinct live `A` and `B` and any event `e`: after `connect(A, e, B, h)`
and `disconnect(A, e, B, h)` the table of `B` is the one right after the connect, `A`'s
`disconnect_all` is still registered under `B`'s `deleted`, keyed by the address of the
base subobject of `A`, and the dispatch loop of `B` for `deleted` contains the call of
that slot with the address of `B` exactly once, a call that runs on `A`. When the
destruction of `B` is defined behaviour, that is, every `disconnect_all` stored before
under `B`'s teardown event is stored under the address of the base subobject of a live
object other than `B`, and every other slot stored there belongs to a live object, the
destruction of `B` is defined, makes that call exactly once, and leaves `A` with the
table that `disconnect_all(B)` gives. -/
theorem C12_disconnect_keeps_teardown_wiring (L : Layout) (hL : L.Lawful) (w : World)
    (A B : Nat) (a b : SignalHandler)
    (hA : w A = some a) (hB : w B = some b) (hAB : A ≠ B) (e : SignalPtr) (h : SlotPtr) :
    ∃ w1 w2 a2 b1, World.connect L w A e B h = some w1 ∧
      World.disconnect w1 A e B h = some w2 ∧
      w1 B = some b1 ∧ w2 B = some b1 ∧ w2 A = some a2 ∧
      SlotPtr.disconnect_all ∈ b1.connected SignalPtr.deleted (L.base A) ∧
      (b1.signal_emit SignalPtr.deleted B).2.count ⟨L.base A, SlotPtr.disconnect_all, B⟩ = 1 ∧
      World.target L ⟨L.base A, SlotPtr.disconnect_all, B⟩ = some A ∧
      ((∀ r, SlotPtr.disconnect_all ∈ b.connected SignalPtr.deleted r →
          ∃ o, L.owner r = some o ∧ o ≠ B ∧ (w o).isSome) →
        (∀ r n, SlotPtr.slot n ∈ b.connected SignalPtr.deleted r → (w r).isSome) →
        ∃ w3 calls, World.destroy L w2 B = some (w3, calls) ∧
          calls.count ⟨L.base A, SlotPtr.disconnect_all, B⟩ = 1 ∧
          w3 B = none ∧ w3 A = some (a2.disconnect_all B)) := by
  have hBA : B ≠ A := fun h => hAB h.symm
  obtain ⟨W1, hW1⟩ : ∃ W1 : World, W1 = fun o => (w o).map (World.connect_at L A e B h o) :=
    ⟨_, rfl⟩
  have hA1 : W1 A = some (a._connect e B h) := by
    rw [hW1]
    simp [hA, World.connect_at_sender L hAB]
  have hB1 : W1 B
      = some (b._connect SignalPtr.deleted (L.base A) SlotPtr.disconnect_all) := by
    rw [hW1]
    simp [hB, World.connect_at_resiver L hAB]
  have hlive1 : ∀ o, (W1 o).isSome = (w o).isSome := by
    intro o
    rw [hW1]
    cases hwo : w o <;> simp [hwo]
  obtain ⟨W2, hW2⟩ : ∃ W2 : World,
      W2 = Function.update W1 A (some ((a._connect e B h).disconnect e B h)) := ⟨_, rfl⟩
  have hB2 : W2 B
      = some (b._connect SignalPtr.deleted (L.base A) SlotPtr.disconnect_all) := by
    rw [hW2, Function.update_noteq hBA]
    exact hB1
  have hA2 : W2 A = some ((a._connect e B h).disconnect e B h) := by
    rw [hW2, Function.update_same]
  have hlive2 : ∀ o, (W2 o).isSome = (w o).isSome := by
    intro o
    rw [← hlive1 o, hW2]
    by_cases ho : o = A
    · subst ho
      rw [Function.update_same, hA1]
      simp only [Option.isSome_some]
    · rw [Function.update_noteq ho]
  have hwired : SlotPtr.disconnect_all ∈
      (b._connect SignalPtr.deleted (L.base A) SlotPtr.disconnect_all).connected
        SignalPtr.deleted (L.base A) := by
    rw [World.mem_connected_connect]
    exact Or.inr ⟨rfl, rfl, rfl⟩
  have hcount : ((b._connect SignalPtr.deleted (L.base A) SlotPtr.disconnect_all).signal_emit
      SignalPtr.deleted B).2.count ⟨L.base A, SlotPtr.disconnect_all, B⟩ = 1 := by
    rw [count_signal_emit]
    simp [hwired]
  refine ⟨W1, W2, _, _, ?_, ?_, hB1, hB2, hA2, hwired, hcount, ?_, ?_⟩
  · rw [World.connect_of_live L hA hB, hW1]
  · simp [World.disconnect, hA1, hW2]
  · simp only [World.target]
    exact hL.owner_base A
  · intro hsafe hlive
    have hsafe1 : ∀ r, SlotPtr.disconnect_all ∈
        (b._connect SignalPtr.deleted (L.base A) SlotPtr.disconnect_all).connected
          SignalPtr.deleted r → ∃ o, L.owner r = some o ∧ o ≠ B ∧ (W2 o).isSome := by
      intro r hr
      rw [World.mem_connected_connect] at hr
      rcases hr with hm | ⟨_, rfl, _⟩
      · obtain ⟨o, ho, hne, hl⟩ := hsafe r hm
        exact ⟨o, ho, hne, by rw [hlive2]; exact hl⟩
      · exact ⟨A, hL.owner_base A, hAB, by rw [hlive2, hA]; simp only [Option.isSome_some]⟩
    have hlive3 : ∀ r n, SlotPtr.slot n ∈
        (b._connect SignalPtr.deleted (L.base A) SlotPtr.disconnect_all).connected
          SignalPtr.deleted r → (W2 r).isSome := by
      intro r n hr
      rw [World.mem_connected_connect] at hr
      rcases hr with hm | ⟨_, _, hh⟩
      · rw [hlive2]
        exact hlive r n hm
      · cases hh
    obtain ⟨w3, hd, hgone, hrest⟩ := World.destroy_of_live L hB2 hsafe1 hlive3
    refine ⟨w3, _, hd, hcount, hgone, ?_⟩
    rw [hrest A hAB, hA2, Option.map_some',
      World.after_calls_of ⟨L.base A, hwired, hL.owner_base A⟩]

theorem C12_disconnect_keeps_teardown_wiring_witness :
    Layout.flat.Lawful ∧
    World.fresh {1, 2} 2 = some SignalHandler.new ∧
    World.fresh {1, 2} 1 = some SignalHandler.new ∧ (2 : Nat) ≠ 1 ∧
    (∀ r, SlotPtr.disconnect_all ∈ SignalHandler.new.connected SignalPtr.deleted r →
      ∃ o, Layout.flat.owner r = some o ∧ o ≠ 1 ∧ (World.fresh {1, 2} o).isSome) ∧
    (∀ r n, SlotPtr.slot n ∈ SignalHandler.new.connected SignalPtr.deleted r →
      (World.fresh {1, 2} r).isSome) ∧
    ∃ w1 w2 a2 b1,
      World.connect Layout.flat (World.fresh {1, 2}) 2 (SignalPtr.signal 0) 1 (SlotPtr.slot 0)
        = some w1 ∧
      World.disconnect w1 2 (SignalPtr.signal 0) 1 (SlotPtr.slot 0) = some w2 ∧
      w1 1 = some b1 ∧ w2 1 = some b1 ∧ w2 2 = some a2 ∧
      SlotPtr.disconnect_all ∈ b1.connected SignalPtr.deleted (Layout.flat.base 2) ∧
      (b1.signal_emit SignalPtr.deleted 1).2.count
        ⟨Layout.flat.base 2, SlotPtr.disconnect_all, 1⟩ = 1 ∧
      World.target Layout.flat ⟨Layout.flat.base 2, SlotPtr.disconnect_all, 1⟩ = some 2 ∧
      ((∀ r, SlotPtr.disconnect_all ∈ SignalHandler.new.connected SignalPtr.deleted r →
          ∃ o, Layout.flat.owner r = some o ∧ o ≠ 1 ∧ (World.fresh {1, 2} o).isSome) →
        (∀ r n, SlotPtr.slot n ∈ SignalHandler.new.connected SignalPtr.deleted r →
          (World.fresh {1, 2} r).isSome) →
        ∃ w3 calls, World.destroy Layout.flat w2 1 = some (w3, calls) ∧
          calls.count ⟨Layout.flat.base 2, SlotPtr.disconnect_all, 1⟩ = 1 ∧
          w3 1 = none ∧ w3 2 = some (a2.disconnect_all 1)) :=
  ⟨Layout.flat_lawful, by simp [World.fresh], by simp [World.fresh], by decide,
    by simp [connected_new], by simp [connected_new],
    C12_disconnect_keeps_teardown_wiring Layout.flat Layout.flat_lawful (World.fresh {1, 2})
      2 1 SignalHandler.new SignalHandler.new (by simp [World.fresh]) (by simp [World.fresh])
      (by decide) (SignalPtr.signal 0) (SlotPtr.slot 0)⟩

/-- C13: a same-instance connect. For every live object `A`, event `e`, handler `h` and
argument `x`, whatever its table held before: `connect(A, e, A, h)` succeeds, registers
`h` for `(e, A)` and the teardown wiring in the same table, and one raise of `e` on `A`
with `x` calls `h` on `A` exactly once with `x`; on the heap that raise is defined when
`e` is not `deleted`, `h` is not `disconnect_all`, and the slots stored before under `e`
run on live objects and hold no `disconnect_all` that runs on `A`. After
`disconnect(A, e, A, h)` a raise of `e` calls `h` on `A` zero times. -/
theorem C13_same_instance_connect (L : Layout) (w : World) (A : Nat) (a : SignalHandler)
    (hA : w A = some a) (e : SignalPtr) (h : SlotPtr) (x : Nat) :
    ∃ w1 a1 w2 a2, World.connect L w A e A h = some w1 ∧ w1 A = some a1 ∧
      h ∈ a1.connected e A ∧
      SlotPtr.disconnect_all ∈ a1.connected SignalPtr.deleted (L.base A) ∧
      calls_to (a1.signal_emit e x).2 A h = {⟨A, h, x⟩} ∧
      (∀ w' calls, World.signal_emit L w1 A e x = some (w', calls) →
        calls_to calls A h = {⟨A, h, x⟩}) ∧
      (e ≠ SignalPtr.deleted → h ≠ SlotPtr.disconnect_all →
        (∀ r, SlotPtr.disconnect_all ∈ a.connected e r → L.owner r ≠ some A) →
        (∀ r k, k ∈ a.connected e r →
          ∃ o, World.target L ⟨r, k, x⟩ = some o ∧ (w o).isSome) →
        ∃ w', World.signal_emit L w1 A e x = some (w', (a1.signal_emit e x).2)) ∧
      World.disconnect w1 A e A h = some w2 ∧ w2 A = some a2 ∧
      calls_to (a2.signal_emit e x).2 A h = 0 ∧
      ∀ w' calls, World.signal_emit L w2 A e x = some (w', calls) →
        calls_to calls A h = 0 := by
  obtain ⟨W1, hW1⟩ : ∃ W1 : World, W1 = fun o => (w o).map (World.connect_at L A e A h o) :=
    ⟨_, rfl⟩
  have hA1 : W1 A = some (World.connect_at L A e A h A a) := by
    rw [hW1]
    simp [hA]
  have hreg : h ∈ (World.connect_at L A e A h A a).connected e A := by
    rw [World.connected_connect_at]
    exact Or.inr (Or.inl ⟨rfl, rfl, rfl, rfl⟩)
  have hwired : SlotPtr.disconnect_all ∈
      (World.connect_at L A e A h A a).connected SignalPtr.deleted (L.base A) := by
    rw [World.connected_connect_at]
    exact Or.inr (Or.inr ⟨rfl, rfl, rfl, rfl⟩)
  have hnot : h ∉ ((World.connect_at L A e A h A a).disconnect e A h).connected e A := by
    rw [connected_disconnect]
    simp
  refine ⟨W1, World.connect_at L A e A h A a,
    Function.update W1 A (some ((World.connect_at L A e A h A a).disconnect e A h)),
    (World.connect_at L A e A h A a).disconnect e A h, ?_, hA1, hreg, hwired, ?_, ?_, ?_, ?_,
    Function.update_same _ _ _, ?_, ?_⟩
  · rw [World.connect_of_live L hA hA, hW1]
  · rw [calls_to_signal_emit, if_pos hreg]
  · intro w' calls hemit
    obtain ⟨s, hs, hcalls⟩ := World.heap_signal_emit_calls hemit
    rw [hA1, Option.some.injEq] at hs
    subst hs hcalls
    rw [calls_to_signal_emit, if_pos hreg]
  · intro he hh hda hl
    have hsame : ∀ o, (W1 o).isSome = (w o).isSome := by
      intro o
      rw [hW1]
      cases hwo : w o <;> simp [hwo]
    refine ⟨_, World.heap_signal_emit_of_live L hA1 e x ?_ ?_ ?_⟩
    · rintro ⟨⟨r, hm, ho⟩, _⟩
      rw [World.connected_connect_at] at hm
      rcases hm with hm | ⟨_, _, _, hm⟩ | ⟨_, hm, _, _⟩
      · exact hda r hm ho
      · exact hh hm.symm
      · exact he hm
    · intro r hm
      rw [World.connected_connect_at] at hm
      rcases hm with hm | ⟨_, _, _, hm⟩ | ⟨_, hm, _, _⟩
      · obtain ⟨o, ho, hw⟩ := hl r _ hm
        exact ⟨o, ho, by rw [hsame]; exact hw⟩
      · exact absurd hm.symm hh
      · exact absurd hm he
    · intro r n hm
      rw [hsame]
      rw [World.connected_connect_at] at hm
      rcases hm with hm | ⟨_, _, rfl, _⟩ | ⟨_, hm, _, _⟩
      · obtain ⟨o, ho, hw⟩ := hl r _ hm
        simp only [World.target, Option.some.injEq] at ho
        rw [ho]
        exact hw
      · rw [hA]; simp only [Option.isSome_some]
      · exact absurd hm he
  · simp [World.disconnect, hA1]
  · rw [calls_to_signal_emit, if_neg hnot]
  · intro w' calls hemit
    obtain ⟨s, hs, hcalls⟩ := World.heap_signal_emit_calls hemit
    rw [Function.update_same, Option.some.injEq] at hs
    subst hs hcalls
    rw [calls_to_signal_emit, if_neg hnot]

theorem C13_same_instance_connect_witness :
    World.fresh {1} 1 = some SignalHandler.new ∧
    ∃ w1 a1 w2 a2,
      World.connect Layout.flat (World.fresh {1}) 1 (SignalPtr.signal 0) 1 (SlotPtr.slot 0) = some w1 ∧
      w1 1 = some a1 ∧
      SlotPtr.slot 0 ∈ a1.connected (SignalPtr.signal 0) 1 ∧
      SlotPtr.disconnect_all ∈ a1.connected SignalPtr.deleted (Layout.flat.base 1) ∧
      calls_to (a1.signal_emit (SignalPtr.signal 0) 314).2 1 (SlotPtr.slot 0)
        = {⟨1, SlotPtr.slot 0, 314⟩} ∧
      (∀ w' calls, World.signal_emit Layout.flat w1 1 (SignalPtr.signal 0) 314 = some (w', calls) →
        calls_to calls 1 (SlotPtr.slot 0) = {⟨1, SlotPtr.slot 0, 314⟩}) ∧
      (SignalPtr.signal 0 ≠ SignalPtr.deleted → SlotPtr.slot 0 ≠ SlotPtr.disconnect_all →
        (∀ r, SlotPtr.disconnect_all ∈ SignalHandler.new.connected (SignalPtr.signal 0) r →
          Layout.flat.owner r ≠ some 1) →
        (∀ r k, k ∈ SignalHandler.new.connected (SignalPtr.signal 0) r →
          ∃ o, World.target Layout.flat ⟨r, k, 314⟩ = some o ∧ (World.fresh {1} o).isSome) →
        ∃ w', World.signal_emit Layout.flat w1 1 (SignalPtr.signal 0) 314
          = some (w', (a1.signal_emit (SignalPtr.signal 0) 314).2)) ∧
      World.disconnect w1 1 (SignalPtr.signal 0) 1 (SlotPtr.slot 0) = some w2 ∧
      w2 1 = some a2 ∧
      calls_to (a2.signal_emit (SignalPtr.signal 0) 314).2 1 (SlotPtr.slot 0) = 0 ∧
      ∀ w' calls, World.signal_emit Layout.flat w2 1 (SignalPtr.signal 0) 314 = some (w', calls) →
        calls_to calls 1 (SlotPtr.slot 0) = 0 :=
  ⟨by simp [World.fresh],
    C13_same_instance_connect Layout.flat (World.fresh {1}) 1 SignalHandler.new (by simp [World.fresh])
      (SignalPtr.signal 0) (SlotPtr.slot 0) 314⟩

/-- C14, as stated, fails, for distinct live objects `1` (for `A`) and `2` (for `B`) with
`slot 0` of `B` subscribed to `A`'s `deleted` by `connect`. When `A` was connected to
itself before, the destructor of `A` runs `disconnect_all(A)` on `A` while it iterates
the entry of `A`, and is undefined. When `A` was subscribed to an emitter `3` that is
destroyed first, the destructor of `A` calls `disconnect_all` on the destroyed `3`, and
is undefined. -/
theorem C14_emitter_teardown_counterexample :
    (((World.connect Layout.flat (World.fresh {1, 2}) 1 (SignalPtr.signal 0) 1
          (SlotPtr.slot 0)).bind
        (fun w => World.connect Layout.flat w 1 SignalPtr.deleted 2 (SlotPtr.slot 0))).map
      (fun w => ((w 2).isSome,
        (w 1).map (fun a => decide (SlotPtr.slot 0 ∈ a.connected SignalPtr.deleted 2)),
        (World.destroy Layout.flat w 1).isSome)))
      = some (true, some true, false) ∧
    ((((World.connect Layout.flat (World.fresh {1, 2, 3}) 3 (SignalPtr.signal 0) 1
          (SlotPtr.slot 0)).bind
        (fun w => World.destroy Layout.flat w 3)).bind
        (fun r => World.connect Layout.flat r.1 1 SignalPtr.deleted 2 (SlotPtr.slot 0))).map
      (fun w => ((w 2).isSome,
        (w 1).map (fun a => decide (SlotPtr.slot 0 ∈ a.connected SignalPtr.deleted 2)),
        (World.destroy Layout.flat w 1).isSome)))
      = some (true, some true, false) := by
  decide

/-- C14 (amended): the destructor of an object `A` is one raise of `deleted` with `A`'s
address, made while the table of `A` is still there, after which the object is gone and
cannot raise it again. After a live `B ≠ A` subscribed `h` with
`connect(A, deleted, B, h)`, the dispatch loop of `A` for `deleted` with `A`'s address
contains the call of `h` on `B` exactly once, and every slot stored under `deleted`
exactly once with that address, as for any other event, and these are the calls of every
defined destruction. When the destruction of `A` is defined behaviour, that is, every
`disconnect_all` stored under `A`'s teardown event is stored under the address of the
base subobject of a live object other than `A`, and every other slot stored there
belongs to a live object, the destruction of `A` is defined and makes exactly these
calls. -/
theorem C14_teardown_event_dispatch (L : Layout) (w : World) (A B : Nat) (a b : SignalHandler)
    (hA : w A = some a) (hB : w B = some b) (hAB : A ≠ B) (h : SlotPtr) :
    ∃ w1 a1, World.connect L w A SignalPtr.deleted B h = some w1 ∧ w1 A = some a1 ∧
      a1 = a._connect SignalPtr.deleted B h ∧
      World.destroy L w1 A
        = (World.signal_emit L w1 A SignalPtr.deleted A).map
            (fun r => (Function.update r.1 A none, r.2)) ∧
      calls_to (a1.signal_emit SignalPtr.deleted A).2 B h = {⟨B, h, A⟩} ∧
      (a1.signal_emit SignalPtr.deleted A).2.count ⟨B, h, A⟩ = 1 ∧
      (∀ r k y, (a1.signal_emit SignalPtr.deleted A).2.count ⟨r, k, y⟩
        = if y = A ∧ k ∈ a1.connected SignalPtr.deleted r then 1 else 0) ∧
      (∀ w2 calls, World.destroy L w1 A = some (w2, calls) →
        calls = (a1.signal_emit SignalPtr.deleted A).2 ∧ w2 A = none ∧
          (World.destroy L w2 A).isSome = false) ∧
      ((∀ r, SlotPtr.disconnect_all ∈ a1.connected SignalPtr.deleted r →
          ∃ o, L.owner r = some o ∧ o ≠ A ∧ (w o).isSome) →
        (∀ r n, SlotPtr.slot n ∈ a1.connected SignalPtr.deleted r → (w r).isSome) →
        ∃ w2, World.destroy L w1 A = some (w2, (a1.signal_emit SignalPtr.deleted A).2) ∧
          w2 A = none) := by
  obtain ⟨W1, hW1⟩ : ∃ W1 : World,
      W1 = fun o => (w o).map (World.connect_at L A SignalPtr.deleted B h o) := ⟨_, rfl⟩
  have hA1 : W1 A = some (a._connect SignalPtr.deleted B h) := by
    rw [hW1]
    simp [hA, World.connect_at_sender L hAB]
  have hreg : h ∈ (a._connect SignalPtr.deleted B h).connected SignalPtr.deleted B := by
    rw [World.mem_connected_connect]
    exact Or.inr ⟨rfl, rfl, rfl⟩
  have hsame : ∀ o, (W1 o).isSome = (w o).isSome := by
    intro o
    rw [hW1]
    cases hwo : w o <;> simp [hwo]
  refine ⟨W1, a._connect SignalPtr.deleted B h, ?_, hA1, rfl, rfl, ?_, ?_, ?_, ?_, ?_⟩
  · rw [World.connect_of_live L hA hB, hW1]
  · rw [calls_to_signal_emit, if_pos hreg]
  · rw [count_signal_emit]
    simp [hreg]
  · intro r k y
    rw [count_signal_emit]
  · intro w2 calls hd
    unfold World.destroy at hd
    rw [Option.map_eq_some'] at hd
    obtain ⟨r, hr, hr2⟩ := hd
    have hr1 : World.signal_emit L W1 A SignalPtr.deleted A = some (r.1, r.2) := hr
    obtain ⟨s, hs, hc⟩ := World.heap_signal_emit_calls hr1
    rw [hA1, Option.some.injEq] at hs
    subst hs
    rw [Prod.mk.injEq] at hr2
    obtain ⟨h1, h2⟩ := hr2
    have hgone : w2 A = none := by
      rw [← h1]
      exact Function.update_same _ _ _
    refine ⟨by rw [← h2]; exact hc, hgone, ?_⟩
    simp only [World.destroy, World.signal_emit, hgone, Option.map_none', Option.isSome_none]
  · intro hsafe hlive
    obtain ⟨w2, hd, hgone, _⟩ := World.destroy_of_live L hA1
      (fun r hr => by
        obtain ⟨o, ho, hne, hl⟩ := hsafe r hr
        exact ⟨o, ho, hne, by rw [hsame]; exact hl⟩)
      (fun r n hr => by rw [hsame]; exact hlive r n hr)
    exact ⟨w2, hd, hgone⟩

theorem C14_teardown_event_dispatch_witness :
    World.fresh {1, 2} 1 = some SignalHandler.new ∧
    World.fresh {1, 2} 2 = some SignalHandler.new ∧ (1 : Nat) ≠ 2 ∧
    (∀ r, SlotPtr.disconnect_all ∈
        (SignalHandler.new._connect SignalPtr.deleted 2 (SlotPtr.slot 0)).connected
          SignalPtr.deleted r →
      ∃ o, Layout.flat.owner r = some o ∧ o ≠ 1 ∧ (World.fresh {1, 2} o).isSome) ∧
    (∀ r n, SlotPtr.slot n ∈
        (SignalHandler.new._connect SignalPtr.deleted 2 (SlotPtr.slot 0)).connected
          SignalPtr.deleted r → (World.fresh {1, 2} r).isSome) ∧
    ∃ w1 a1,
      World.connect Layout.flat (World.fresh {1, 2}) 1 SignalPtr.deleted 2 (SlotPtr.slot 0)
        = some w1 ∧
      w1 1 = some a1 ∧
      a1 = SignalHandler.new._connect SignalPtr.deleted 2 (SlotPtr.slot 0) ∧
      World.destroy Layout.flat w1 1
        = (World.signal_emit Layout.flat w1 1 SignalPtr.deleted 1).map
            (fun r : World × Multiset Call => (Function.update r.1 (1 : Nat) none, r.2)) ∧
      calls_to (a1.signal_emit SignalPtr.deleted 1).2 2 (SlotPtr.slot 0)
        = {⟨2, SlotPtr.slot 0, 1⟩} ∧
      (a1.signal_emit SignalPtr.deleted 1).2.count ⟨2, SlotPtr.slot 0, 1⟩ = 1 ∧
      (∀ r k y, (a1.signal_emit SignalPtr.deleted 1).2.count ⟨r, k, y⟩
        = if y = 1 ∧ k ∈ a1.connected SignalPtr.deleted r then 1 else 0) ∧
      (∀ w2 calls, World.destroy Layout.flat w1 1 = some (w2, calls) →
        calls = (a1.signal_emit SignalPtr.deleted 1).2 ∧ w2 1 = none ∧
          (World.destroy Layout.flat w2 1).isSome = false) ∧
      ((∀ r, SlotPtr.disconnect_all ∈ a1.connected SignalPtr.deleted r →
          ∃ o, Layout.flat.owner r = some o ∧ o ≠ 1 ∧ (World.fresh {1, 2} o).isSome) →
        (∀ r n, SlotPtr.slot n ∈ a1.connected SignalPtr.deleted r →
          (World.fresh {1, 2} r).isSome) →
        ∃ w2, World.destroy Layout.flat w1 1
            = some (w2, (a1.signal_emit SignalPtr.deleted 1).2) ∧
          w2 1 = none) :=
  have h1 : ∀ r, SlotPtr.disconnect_all ∈
        (SignalHandler.new._connect SignalPtr.deleted 2 (SlotPtr.slot 0)).connected
          SignalPtr.deleted r →
      ∃ o, Layout.flat.owner r = some o ∧ o ≠ 1 ∧ (World.fresh {1, 2} o).isSome := by
    intro r hr
    rw [World.mem_connected_connect] at hr
    rcases hr with hm | ⟨_, _, hh⟩
    · simp [connected_new] at hm
    · cases hh
  have h2 : ∀ r n, SlotPtr.slot n ∈
        (SignalHandler.new._connect SignalPtr.deleted 2 (SlotPtr.slot 0)).connected
          SignalPtr.deleted r → (World.fresh {1, 2} r).isSome := by
    intro r n hr
    rw [World.mem_connected_connect] at hr
    rcases hr with hm | ⟨_, hr, _⟩
    · simp [connected_new] at hm
    · rw [hr]
      simp [World.fresh]
  ⟨by simp [World.fresh], by simp [World.fresh], by decide, h1, h2,
    C14_teardown_event_dispatch Layout.flat (World.fresh {1, 2}) 1 2 SignalHandler.new
      SignalHandler.new (by simp [World.fresh]) (by simp [World.fresh]) (by decide)
      (SlotPtr.slot 0)⟩

/-- C15, as stated, fails: on a fresh table, which has no key at all, `disconnect`
creates the event key `signal 0` and under it the subscriber key `2`, and a raise
creates the event key `signal 0`. -/
theorem C15_disconnect_and_raise_create_keys :
    SignalPtr.signal 0 ∉ SignalHandler.new.m_connected_slots ∧
    SignalPtr.signal 0 ∈
      (SignalHandler.new.disconnect (SignalPtr.signal 0) 2 (SlotPtr.slot 0)).m_connected_slots ∧
    2 ∈ subscript
      (SignalHandler.new.disconnect (SignalPtr.signal 0) 2 (SlotPtr.slot 0)).m_connected_slots
      (SignalPtr.signal 0) ∧
    SignalPtr.signal 0 ∈ (SignalHandler.new.signal_emit (SignalPtr.signal 0) 7).1.m_connected_slots := by
  decide

/-- C15 (amended): registrations are added only by `connect`. For every table,
`disconnect`, `disconnect_all` and a raise never add a registered
`(event, subscriber, handler)` triple; `disconnect_all` adds no key; the only keys that
`disconnect(e, r, h)` can add are the event key `e` and the subscriber key `r` under `e`,
and the only key that a raise of `e` can add is the event key `e`, with no subscriber
under it. -/
theorem C15_only_connect_adds_registrations (t : SignalHandler) (e : SignalPtr)
    (r : ResiverPtr) (h : SlotPtr) (s : SenderPtr) (x : Nat) :
    (t.disconnect e r h).registrations ⊆ t.registrations ∧
    (t.disconnect_all s).registrations ⊆ t.registrations ∧
    (t.signal_emit e x).1.registrations = t.registrations ∧
    (∀ g, g ∈ (t.disconnect_all s).m_connected_slots → g ∈ t.m_connected_slots) ∧
    (∀ g q, q ∈ subscript (t.disconnect_all s).m_connected_slots g →
      q ∈ subscript t.m_connected_slots g) ∧
    (∀ g, g ∈ (t.disconnect e r h).m_connected_slots → g = e ∨ g ∈ t.m_connected_slots) ∧
    (∀ g q, q ∈ subscript (t.disconnect e r h).m_connected_slots g →
      (g = e ∧ q = r) ∨ q ∈ subscript t.m_connected_slots g) ∧
    (∀ g, g ∈ (t.signal_emit e x).1.m_connected_slots → g = e ∨ g ∈ t.m_connected_slots) ∧
    (∀ g, subscript (t.signal_emit e x).1.m_connected_slots g
      = subscript t.m_connected_slots g) := by
  refine ⟨?_, ?_, ?_, ?_, ?_, ?_, ?_, ?_, ?_⟩
  · rintro ⟨g, q, k⟩ hm
    rw [mem_registrations] at hm ⊢
    rw [connected_disconnect] at hm
    split at hm
    · next hc =>
      obtain ⟨rfl, rfl⟩ := hc
      exact (Finset.mem_erase.1 hm).2
    · exact hm
  · rintro ⟨g, q, k⟩ hm
    rw [mem_registrations] at hm ⊢
    rw [connected_disconnect_all] at hm
    split at hm
    · simp at hm
    · exact hm
  · ext ⟨g, q, k⟩
    rw [mem_registrations, mem_registrations, connected_signal_emit]
  · intro g hg
    exact (mem_forEachValue _ _ g).1 hg
  · intro g q hq
    rw [subscript_disconnect_all] at hq
    exact (Finmap.mem_erase.1 hq).2
  · intro g hg
    simp only [SignalHandler.disconnect, Finmap.mem_insert] at hg
    exact hg
  · intro g q hq
    rw [subscript_disconnect] at hq
    split at hq
    · next hge =>
      rw [Finmap.mem_insert] at hq
      rcases hq with hq | hq
      · exact Or.inl ⟨hge, hq⟩
      · rw [hge]
        exact Or.inr hq
    · exact Or.inr hq
  · intro g hg
    simp only [SignalHandler.signal_emit, Finmap.mem_insert] at hg
    exact hg
  · intro g
    exact subscript_signal_emit t e g x

/-- C17: the type check that guards `connect` and `disconnect`. It accepts a combination
(sender type, event, subscriber type, handler) only if the parameter list of the event
equals the parameter list of the handler (same length, same types, same order) and the
class that declares the handler is the subscriber's type or one of its bases. Every
combination that violates one of the two is rejected: a `static_assert` fails, and the
instantiations of `connect` and of `disconnect` are errors of the compilation, so that
no heap operation exists and no table is touched. -/
theorem C17_type_check_guards_connect (L : Layout) (is_base_of : TypeId → TypeId → Bool) (SenderT : TypeId)
    (SenderArgT : MethodPtr) (ResiverT : TypeId) (ResiverArgT : MethodPtr) :
    (check_signal_slot_types is_base_of SenderT SenderArgT ResiverT ResiverArgT = [] →
      (MethodInfo.of SenderArgT).ArgsTuple = (MethodInfo.of ResiverArgT).ArgsTuple ∧
      ((MethodInfo.of ResiverArgT).ClassType = ResiverT
        ∨ is_base_of (MethodInfo.of ResiverArgT).ClassType ResiverT = true)) ∧
    (¬((MethodInfo.of SenderArgT).ArgsTuple = (MethodInfo.of ResiverArgT).ArgsTuple ∧
        ((MethodInfo.of ResiverArgT).ClassType = ResiverT
          ∨ is_base_of (MethodInfo.of ResiverArgT).ClassType ResiverT = true)) →
      ∃ m ms,
        check_signal_slot_types is_base_of SenderT SenderArgT ResiverT ResiverArgT = m :: ms ∧
        ∀ sender signal resiver slot,
          World.instantiate_connect L is_base_of SenderT SenderArgT ResiverT ResiverArgT
            sender signal resiver slot = Except.error (m :: ms) ∧
          World.instantiate_disconnect is_base_of SenderT SenderArgT ResiverT ResiverArgT
            sender signal resiver slot = Except.error (m :: ms)) := by
  have hacc : check_signal_slot_types is_base_of SenderT SenderArgT ResiverT ResiverArgT = [] →
      (MethodInfo.of SenderArgT).ArgsTuple = (MethodInfo.of ResiverArgT).ArgsTuple ∧
      ((MethodInfo.of ResiverArgT).ClassType = ResiverT
        ∨ is_base_of (MethodInfo.of ResiverArgT).ClassType ResiverT = true) := by
    intro hc
    unfold check_signal_slot_types at hc
    simp only [List.append_eq_nil, ite_eq_left_iff, List.cons_ne_nil, imp_false,
      Decidable.not_not] at hc
    exact ⟨hc.2, hc.1.1⟩
  refine ⟨hacc, ?_⟩
  intro hv
  cases hc : check_signal_slot_types is_base_of SenderT SenderArgT ResiverT ResiverArgT with
  | nil => exact absurd (hacc hc) hv
  | cons m ms =>
    refine ⟨m, ms, rfl, ?_⟩
    intro sender signal resiver slot
    constructor
    · simp only [World.instantiate_connect, hc]
    · simp only [World.instantiate_disconnect, hc]

theorem C17_type_check_guards_connect_witness :
    check_signal_slot_types (fun c d => decide (c = 10 ∧ d = 11)) 20 ⟨20, 0, [1], false⟩ 11
      ⟨10, 0, [1], false⟩ = [] ∧
    ((MethodInfo.of ⟨20, 0, [1], false⟩).ArgsTuple = (MethodInfo.of ⟨10, 0, [1], false⟩).ArgsTuple ∧
      ((MethodInfo.of ⟨10, 0, [1], false⟩).ClassType = 11
        ∨ (fun c d => decide (c = 10 ∧ d = 11)) (MethodInfo.of ⟨10, 0, [1], false⟩).ClassType 11
          = true)) ∧
    ¬((MethodInfo.of ⟨20, 0, [1], false⟩).ArgsTuple = (MethodInfo.of ⟨10, 0, [2], false⟩).ArgsTuple ∧
      ((MethodInfo.of ⟨10, 0, [2], false⟩).ClassType = 11
        ∨ (fun c d => decide (c = 10 ∧ d = 11)) (MethodInfo.of ⟨10, 0, [2], false⟩).ClassType 11
          = true)) ∧
    ∃ m ms,
      check_signal_slot_types (fun c d => decide (c = 10 ∧ d = 11)) 20 ⟨20, 0, [1], false⟩ 11
        ⟨10, 0, [2], false⟩ = m :: ms ∧
      ∀ sender signal resiver slot,
        World.instantiate_connect Layout.flat (fun c d => decide (c = 10 ∧ d = 11)) 20 ⟨20, 0, [1], false⟩
          11 ⟨10, 0, [2], false⟩ sender signal resiver slot = Except.error (m :: ms) ∧
        World.instantiate_disconnect (fun c d => decide (c = 10 ∧ d = 11)) 20
          ⟨20, 0, [1], false⟩ 11 ⟨10, 0, [2], false⟩ sender signal resiver slot
          = Except.error (m :: ms) :=
  ⟨by decide,
    (C17_type_check_guards_connect Layout.flat (fun c d => decide (c = 10 ∧ d = 11)) 20
      ⟨20, 0, [1], false⟩ 11 ⟨10, 0, [1], false⟩).1 (by decide),
    by decide,
    (C17_type_check_guards_connect Layout.flat (fun c d => decide (c = 10 ∧ d = 11)) 20
      ⟨20, 0, [1], false⟩ 11 ⟨10, 0, [2], false⟩).2 (by decide)⟩

/-- C18, as stated, fails: `connect(1, signal 0, 2, disconnect_all)` and
`connect(3, signal 1, 2, slot 0)`, then the raise of `signal 0` on `1` with the address
`3` runs `2.disconnect_all(3)`. Afterwards `slot 0` of `2` is still registered in the
table of `3` under `signal 1`, and `3`'s `disconnect_all` is no longer registered under
`deleted` in the table of `2`. -/
theorem C18_raise_of_disconnect_all_counterexample :
    (((World.connect Layout.flat (World.fresh {1, 2, 3}) 1 (SignalPtr.signal 0) 2
          SlotPtr.disconnect_all).bind
        (fun w => World.connect Layout.flat w 3 (SignalPtr.signal 1) 2 (SlotPtr.slot 0))).bind
        (fun w => World.signal_emit Layout.flat w 1 (SignalPtr.signal 0) 3)).map
      (fun r =>
        ((r.1 3).map (fun c => decide (SlotPtr.slot 0 ∈ c.connected (SignalPtr.signal 1) 2)),
         (r.1 2).map (fun b =>
            decide (SlotPtr.disconnect_all ∈ b.connected SignalPtr.deleted 3))))
      = some (some true, some false) := by
  decide

/-- C18 (amended): the teardown-wiring invariant. In every heap reached from fresh
objects by `connect` with any arguments, `disconnect` on events other than `deleted`,
and raises of events other than `deleted` that run no `disconnect_all` slot: whenever a
subscriber `B` has a slot registered in the table of `A` under an event other than
`deleted`, `B` is live and `A`'s `disconnect_all` is registered for `A` under `deleted`
in the table of `B`. -/
theorem C18_teardown_wiring_invariant (L : Layout) (objs : Finset Nat) (w : World)
    (hw : World.Reached L objs w) (A B : Nat) (a : SignalHandler) (hA : w A = some a)
    (e : SignalPtr) (he : e ≠ SignalPtr.deleted) (h : SlotPtr) (hreg : h ∈ a.connected e B) :
    ∃ b, w B = some b ∧ SlotPtr.disconnect_all ∈ b.connected SignalPtr.deleted (L.base A) :=
  hw.keeps_wiring A a e B h hA hreg he

theorem C18_teardown_wiring_invariant_witness :
    World.Reached Layout.flat {1, 2} (fun o => (World.fresh {1, 2} o).map
      (World.connect_at Layout.flat 2 (SignalPtr.signal 0) 1 (SlotPtr.slot 0) o)) ∧
    SignalPtr.signal 0 ≠ SignalPtr.deleted ∧
    SlotPtr.slot 0 ∈ (World.connect_at Layout.flat 2 (SignalPtr.signal 0) 1 (SlotPtr.slot 0) 2
      SignalHandler.new).connected (SignalPtr.signal 0) 1 ∧
    ∃ b, (fun o => (World.fresh {1, 2} o).map
        (World.connect_at Layout.flat 2 (SignalPtr.signal 0) 1 (SlotPtr.slot 0) o)) 1 = some b ∧
      SlotPtr.disconnect_all ∈ b.connected SignalPtr.deleted (Layout.flat.base 2) :=
  have hr : World.Reached Layout.flat {1, 2} (fun o => (World.fresh {1, 2} o).map
      (World.connect_at Layout.flat 2 (SignalPtr.signal 0) 1 (SlotPtr.slot 0) o)) :=
    World.Reached.connect 2 (SignalPtr.signal 0) 1 (SlotPtr.slot 0) World.Reached.fresh
      (World.connect_of_live Layout.flat (a := SignalHandler.new) (b := SignalHandler.new)
        (by simp [World.fresh]) (by simp [World.fresh]) (SignalPtr.signal 0) (SlotPtr.slot 0))
  ⟨hr, by decide, by decide,
    C18_teardown_wiring_invariant Layout.flat {1, 2} _ hr 2 1
      (World.connect_at Layout.flat 2 (SignalPtr.signal 0) 1 (SlotPtr.slot 0) 2 SignalHandler.new)
      (by simp [World.fresh]) (SignalPtr.signal 0) (by decide) (SlotPtr.slot 0) (by decide)⟩

/-- C19: a raise does not change registrations. For every table, event `e` and
arguments, the registered `(event, subscriber, handler)` triples after the raise are
those before, so a second raise of `e` calls the same `(subscriber, handler)` pairs;
and on the heap, when the slots run by the raise are slots of user classes (they do not
edit the registry themselves), every object keeps its registrations and a following
raise of `e` calls the same pairs. -/
theorem C19_raise_keeps_registrations (s : SignalHandler) (e : SignalPtr) (x y : Nat) :
    (s.signal_emit e x).1.registrations = s.registrations ∧
    (∀ g r, (s.signal_emit e x).1.connected g r = s.connected g r) ∧
    ((s.signal_emit e x).1.signal_emit e y).2.map (fun c => (c.resiver, c.slot))
      = (s.signal_emit e x).2.map (fun c => (c.resiver, c.slot)) ∧
    ((s.signal_emit e x).1.signal_emit e x).2 = (s.signal_emit e x).2 ∧
    ∀ (L : Layout) (w : World) (A : Nat) (w1 : World) (calls : Multiset Call), w A = some s →
      World.signal_emit L w A e x = some (w1, calls) →
      (∀ c ∈ calls, c.slot ≠ SlotPtr.disconnect_all) →
      (∀ o t, w o = some t → ∃ t1, w1 o = some t1 ∧ t1.registrations = t.registrations) ∧
      ∀ w2 calls2, World.signal_emit L w1 A e y = some (w2, calls2) →
        calls2.map (fun c => (c.resiver, c.slot)) = calls.map (fun c => (c.resiver, c.slot)) := by
  have hreg : ∀ t : SignalHandler, (t.signal_emit e x).1.registrations = t.registrations := by
    intro t
    ext ⟨g, q, k⟩
    rw [mem_registrations, mem_registrations, connected_signal_emit]
  have hpairs : ∀ p : Nat,
      ((s.signal_emit e x).1.signal_emit e p).2.map (fun c => (c.resiver, c.slot))
        = (s.signal_emit e x).2.map (fun c => (c.resiver, c.slot)) := by
    intro p
    rw [signal_emit_calls, signal_emit_calls, subscript_signal_emit, emitted_pairs,
      emitted_pairs]
  refine ⟨hreg s, fun g r => connected_signal_emit s e g x r, hpairs y, ?_, ?_⟩
  · rw [signal_emit_calls, signal_emit_calls, subscript_signal_emit]
  · intro L w A w1 calls hA hr hu
    obtain ⟨s1, hs1, hc, hw1⟩ := World.heap_signal_emit_user hr hu
    rw [hA, Option.some.injEq] at hs1
    subst hs1 hw1
    constructor
    · intro o t ho
      by_cases hoA : o = A
      · subst hoA
        rw [hA, Option.some.injEq] at ho
        subst ho
        exact ⟨_, Function.update_same _ _ _, hreg _⟩
      · exact ⟨t, by rw [Function.update_noteq hoA]; exact ho, rfl⟩
    · intro w2 calls2 hr2
      obtain ⟨s2, hs2, hc2⟩ := World.heap_signal_emit_calls hr2
      rw [Function.update_same, Option.some.injEq] at hs2
      subst hs2
      rw [hc2, hc]
      exact hpairs y
